import Mathlib

/-!
Verification of the scheduler-service core: the availability-to-slot
derivation engine (`AvailabilityService.GenerateAvailableSlots`), the
booking conflict resolver (`BookingService.CreateBooking`,
`BookingService.CancelBooking`) and the availability-rule store operations
(`SetAvailability`, `UpdateAvailability`), shallowly embedded from the Go
sources.

Modelling conventions:
* A Go `time.Time` UTC instant is an `Int` of nanoseconds since the Unix
  epoch.  `Truncate(24h)`, `Weekday()` and `Unix()` become the arithmetic
  below (the Go zero time is a whole number of days before the epoch, so
  truncation to 24h multiples is flooring on epoch nanoseconds; the epoch
  was a Thursday, weekday 4).
* The Postgres stores are lists of records; each SQL statement from the
  repository layer becomes the corresponding pure list operation, with
  `QueryRow` reading the first matching row (`List.find?`).
* Server-generated values (uuids via `gen_random_uuid()`, `now()`) are
  passed in as parameters.
* The unbounded Go `for` loops of the slot derivation appear twice: a
  fueled transcription (`...Go` definitions, `none` = the loop is still
  running when the fuel runs out) and a closed form used by the other
  definitions; the termination theorem for claim C9 proves the two agree
  for positive slot lengths.
-/

namespace Scheduler

/-- A UTC instant: nanoseconds since the Unix epoch (Go `time.Time`). -/
abbrev Time := Int

def nsPerSec : Int := 1000000000

def nsPerMin : Int := 60 * nsPerSec

def nsPerHour : Int := 3600 * nsPerSec

def nsPerDay : Int := 86400 * nsPerSec

/-- Signed 64-bit wraparound, as Go `int64` arithmetic. -/
def wrap64 (x : Int) : Int := (x + 2 ^ 63) % 2 ^ 64 - 2 ^ 63

/-- Go `time.Duration(r.SlotLengthMins) * time.Minute`: an `int64`
product, which wraps for `|mins| ≥ 153722868`. -/
def goSlotLen (mins : Int) : Int := wrap64 (mins * nsPerMin)

/-- Go `t.Truncate(24 * time.Hour)`: floor `t` to a whole UTC day. -/
def truncDay (t : Time) : Time := t - t % nsPerDay

/-- Go `t.Weekday()` for a midnight instant `t` (Sunday = 0; the epoch was a Thursday). -/
def weekday (t : Time) : Int := (t / nsPerDay + 4) % 7

/-- Go `t.Unix()`: whole seconds since the epoch (floor). -/
def unixSec (t : Time) : Int := t / nsPerSec

/-! ### `HH:MM` parsing (Go `time.Parse("15:04", s)` and `parseHHMM`) -/

/-- One-or-two-digit number at the head of the input, as Go's non-fixed
`getnum` does for the `15` and `04` layout elements. -/
def getnum2 : List Char → Option (Nat × List Char)
  | c1 :: c2 :: rest =>
    if c1.isDigit then
      if c2.isDigit then some ((c1.toNat - 48) * 10 + (c2.toNat - 48), rest)
      else some (c1.toNat - 48, c2 :: rest)
    else none
  | [c1] => if c1.isDigit then some (c1.toNat - 48, []) else none
  | [] => none

/-- Exactly-two-digit number at the head of the input, as Go's fixed
`getnum` does for the zero-padded `04` layout element. -/
def getnum2fixed : List Char → Option (Nat × List Char)
  | c1 :: c2 :: rest =>
    if c1.isDigit && c2.isDigit then
      some ((c1.toNat - 48) * 10 + (c2.toNat - 48), rest)
    else none
  | _ => none

/-- Go `time.Parse("15:04", ·)` on a character list: a one-or-two digit
hour (layout `15` is non-fixed), `:`, an exactly-two-digit minute (layout
`04` is zero-padded, hence fixed), nothing left over, hour `0–23`, minute
`0–59`.  Result: minutes since midnight. -/
def parseClock (cs : List Char) : Option Nat := do
  let (h, cs1) ← getnum2 cs
  match cs1 with
  | ':' :: cs2 => do
    let (m, cs3) ← getnum2fixed cs2
    match cs3 with
    | [] => if h ≤ 23 ∧ m ≤ 59 then some (h * 60 + m) else none
    | _ => none
  | _ => none

/-- Go `time.Parse("15:04", s)` as used by `validateAvailabilityRule`. -/
def timeParseHHMM (s : String) : Option Nat := parseClock s.data

/-- Go `parseHHMM`: reject strings shorter than 5, truncate to the first 5
characters, then parse as `15:04`. -/
def parseHHMM (s : String) : Option Nat :=
  if s.data.length < 5 then none else parseClock (s.data.take 5)

/-! ### Data model (`internal/models`) -/

/-- `models.AvailabilityRule` (times of day kept as their stored `HH:MM` text). -/
structure AvailabilityRule where
  id : String
  userID : String
  dayOfWeek : Int
  startTime : String
  endTime : String
  slotLengthMins : Int
  title : String
  available : Bool
  createdAt : Time
  updatedAt : Time
deriving Repr, DecidableEq

/-- `models.Booking`. -/
structure Booking where
  id : String
  userID : String
  candidateEmail : String
  startAtUTC : Time
  endAtUTC : Time
  status : String
  source : String
  type : String
  description : String
  title : String
  createdAt : Time
deriving Repr, DecidableEq

/-- `service.Slot`. -/
structure Slot where
  startUTC : Time
  endUTC : Time
deriving Repr, DecidableEq

/-- `service.CreateBookingParams` (`End` renamed `endAt`; `end` is reserved). -/
structure CreateBookingParams where
  candidateEmail : String
  start : Time
  endAt : Time
  source : String
  type : String
  description : String
  title : String
deriving Repr, DecidableEq

/-- Go `validateAvailabilityRule`: both times must parse as `15:04` and the
end must be strictly after the start. -/
def validateAvailabilityRule (r : AvailabilityRule) : Except String Unit :=
  match timeParseHHMM r.startTime with
  | none => .error "parsing time: invalid start_time"
  | some sT =>
    match timeParseHHMM r.endTime with
    | none => .error "parsing time: invalid end_time"
    | some eT =>
      if sT < eT then .ok () else .error "end_time must be after start_time"

/-! ### Booking repository (`postgres.BookingRepo`) -/

/-- `BookingRepo.ListBookingsInRange`: rows of the user with
`fromUTC <= start_at_utc < toUTC` and `status='confirmed'`, in store order. -/
def listBookingsInRange (db : List Booking) (userID : String)
    (fromUTC toUTC : Time) : List Booking :=
  db.filter fun b =>
    b.userID == userID && (fromUTC ≤ b.startAtUTC && b.startAtUTC < toUTC)
      && b.status == "confirmed"

/-- `BookingRepo.CheckExistingBookingAtStart`: id of the first `confirmed`
row of the user at exactly `start`, or `""` when there is none
(`pgx.ErrNoRows` leaves the scanned id empty). -/
def checkExistingBookingAtStart (db : List Booking) (userID : String)
    (start : Time) : String :=
  match db.find? fun b =>
      b.userID == userID && b.status == "confirmed" && b.startAtUTC == start with
  | some b => b.id
  | none => ""

/-- `BookingRepo.GetBookingStatus`: status of the first row with this id. -/
def getBookingStatus (db : List Booking) (id : String) : Option String :=
  (db.find? fun b => b.id == id).map (·.status)

/-- `BookingRepo.CancelBooking`: `UPDATE bookings SET status='cancelled'
WHERE id=$1 AND status != 'cancelled'`; returns the affected row count and
the updated store. -/
def cancelBookingUpdate (db : List Booking) (id : String) :
    Nat × List Booking :=
  ((db.filter fun b => b.id == id && b.status != "cancelled").length,
   db.map fun b =>
     if b.id == id && b.status != "cancelled" then { b with status := "cancelled" }
     else b)

/-! ### Slot derivation (`AvailabilityService.GenerateAvailableSlots`),
closed form of the two loops -/

/-- Iteration count of the Go tiling loop
`for s0 := lo; s0+L <= hi; s0 += L` (only meaningful for `0 < L`; the Go
loop never terminates for `L ≤ 0` when it is entered, see the fueled
version below). -/
def tileCount (L lo hi : Int) : Nat :=
  if 0 < L then ((hi - lo) / L).toNat else 0

/-- Slot start instants produced by the tiling loop. -/
def tileStarts (L lo hi : Int) : List Int :=
  (List.range (tileCount L lo hi)).map fun k : Nat => lo + (k : Int) * L

/-- Iteration count of the day loop
`for day := startDate; !day.After(endDate); day = day.Add(24h)`. -/
def dayCount (startDate endDate : Time) : Nat :=
  if startDate ≤ endDate then ((endDate - startDate) / nsPerDay).toNat + 1
  else 0

/-- The days visited by the day loop. -/
def dayRange (startDate endDate : Time) : List Time :=
  (List.range (dayCount startDate endDate)).map fun i : Nat => startDate + (i : Int) * nsPerDay

/-- Body of the per-rule work inside the day loop: skip a rule whose
weekday does not match, parse both times (error aborts the whole
derivation), re-check `end > start`, then tile and keep the slots that
overlap the window (`endUTC.After(fromUTC) && startUTC.Before(toUTC)`) for
an `available` rule. -/
def ruleSlotsOnDay (r : AvailabilityRule) (day fromUTC toUTC : Time) :
    Except String (List Slot) :=
  if weekday day ≠ r.dayOfWeek then .ok []
  else
    match parseHHMM r.startTime with
    | none => .error ("invalid time string: " ++ r.startTime)
    | some sT =>
      match parseHHMM r.endTime with
      | none => .error ("invalid time string: " ++ r.endTime)
      | some eT =>
        if (eT : Int) ≤ (sT : Int) then
          .error ("end_time must be after start_time for rule " ++ r.id)
        else
          .ok ((tileStarts (goSlotLen r.slotLengthMins)
              (day + (sT : Int) * nsPerMin) (day + (eT : Int) * nsPerMin)).filterMap
            fun st =>
              if fromUTC < st + goSlotLen r.slotLengthMins ∧ st < toUTC ∧ r.available = true then
                some ⟨st, st + goSlotLen r.slotLengthMins⟩
              else none)

/-- The inner `for _, r := range rules` loop on one day, accumulating in
rule order and aborting on the first error. -/
def rulesSlotsOnDay (day fromUTC toUTC : Time) :
    List AvailabilityRule → Except String (List Slot)
  | [] => .ok []
  | r :: rest =>
    match ruleSlotsOnDay r day fromUTC toUTC with
    | .error e => .error e
    | .ok s1 =>
      match rulesSlotsOnDay day fromUTC toUTC rest with
      | .error e => .error e
      | .ok s2 => .ok (s1 ++ s2)

/-- The day loop over a given day list, day-major accumulation. -/
def daysSlots (rules : List AvailabilityRule) (fromUTC toUTC : Time) :
    List Time → Except String (List Slot)
  | [] => .ok []
  | d :: rest =>
    match rulesSlotsOnDay d fromUTC toUTC rules with
    | .error e => .error e
    | .ok s1 =>
      match daysSlots rules fromUTC toUTC rest with
      | .error e => .error e
      | .ok s2 => .ok (s1 ++ s2)

/-- Candidate slots of `GenerateAvailableSlots` (lines building
`candidate` before the booking lookup). -/
def candidateSlots (rules : List AvailabilityRule) (fromUTC toUTC : Time) :
    Except String (List Slot) :=
  daysSlots rules fromUTC toUTC (dayRange (truncDay fromUTC) (truncDay toUTC))

/-- `AvailabilityService.GenerateAvailableSlots`: empty rule list returns
`nil, nil`; otherwise build the candidates, load the confirmed bookings of
the padded range `[fromUTC-1h, toUTC+1h)`, key them by `Unix()` seconds and
drop every candidate whose start matches an occupied key. -/
def generateAvailableSlots (rules : List AvailabilityRule)
    (db : List Booking) (userID : String) (fromUTC toUTC : Time) :
    Except String (List Slot) :=
  if rules.isEmpty then .ok []
  else
    match candidateSlots rules fromUTC toUTC with
    | .error e => .error e
    | .ok candidate =>
      let bookings := listBookingsInRange db userID (fromUTC - nsPerHour) (toUTC + nsPerHour)
      let booked := bookings.map fun b => unixSec b.startAtUTC
      .ok (candidate.filter fun sl => !(booked.contains (unixSec sl.startUTC)))

/-! ### Fueled transcription of the Go loops (for the termination claim) -/

/-- A Go loop `for x := x0; cond(x); x += step`, run on bounded fuel;
`none` means the loop was still running when the fuel ran out. -/
def whileAddGo (step : Int) (cond : Int → Bool) : Nat → Int → Option (List Int)
  | 0, x => if cond x then none else some []
  | fuel + 1, x =>
    if cond x then (whileAddGo step cond fuel (x + step)).map (x :: ·)
    else some []

/-- The tiling loop `for s0 := lo; s0.Add(L).Equal(hi) || s0.Add(L).Before(hi); s0 = s0.Add(L)`. -/
def tileStartsGo (fuel : Nat) (L lo hi : Int) : Option (List Int) :=
  whileAddGo L (fun s0 => decide (s0 + L ≤ hi)) fuel lo

/-- The day loop `for day := startDate; !day.After(endDate); day = day.Add(24h)`. -/
def dayRangeGo (fuel : Nat) (startDate endDate : Time) : Option (List Time) :=
  whileAddGo nsPerDay (fun d => decide (d ≤ endDate)) fuel startDate

/-- Fueled `ruleSlotsOnDay`. -/
def ruleSlotsOnDayGo (fuel : Nat) (r : AvailabilityRule)
    (day fromUTC toUTC : Time) : Option (Except String (List Slot)) :=
  if weekday day ≠ r.dayOfWeek then some (.ok [])
  else
    match parseHHMM r.startTime with
    | none => some (.error ("invalid time string: " ++ r.startTime))
    | some sT =>
      match parseHHMM r.endTime with
      | none => some (.error ("invalid time string: " ++ r.endTime))
      | some eT =>
        if (eT : Int) ≤ (sT : Int) then
          some (.error ("end_time must be after start_time for rule " ++ r.id))
        else
          match tileStartsGo fuel (goSlotLen r.slotLengthMins)
              (day + (sT : Int) * nsPerMin) (day + (eT : Int) * nsPerMin) with
          | none => none
          | some sts =>
            some (.ok (sts.filterMap fun st =>
              if fromUTC < st + goSlotLen r.slotLengthMins ∧ st < toUTC ∧ r.available = true then
                some ⟨st, st + goSlotLen r.slotLengthMins⟩
              else none))

/-- Fueled `rulesSlotsOnDay`. -/
def rulesSlotsOnDayGo (fuel : Nat) (day fromUTC toUTC : Time) :
    List AvailabilityRule → Option (Except String (List Slot))
  | [] => some (.ok [])
  | r :: rest =>
    match ruleSlotsOnDayGo fuel r day fromUTC toUTC with
    | none => none
    | some (.error e) => some (.error e)
    | some (.ok s1) =>
      match rulesSlotsOnDayGo fuel day fromUTC toUTC rest with
      | none => none
      | some (.error e) => some (.error e)
      | some (.ok s2) => some (.ok (s1 ++ s2))

/-- Fueled `daysSlots`. -/
def daysSlotsGo (fuel : Nat) (rules : List AvailabilityRule)
    (fromUTC toUTC : Time) : List Time → Option (Except String (List Slot))
  | [] => some (.ok [])
  | d :: rest =>
    match rulesSlotsOnDayGo fuel d fromUTC toUTC rules with
    | none => none
    | some (.error e) => some (.error e)
    | some (.ok s1) =>
      match daysSlotsGo fuel rules fromUTC toUTC rest with
      | none => none
      | some (.error e) => some (.error e)
      | some (.ok s2) => some (.ok (s1 ++ s2))

/-- Fueled `GenerateAvailableSlots`, a direct transcription of the Go
control flow in which both unbounded loops consume fuel. -/
def generateAvailableSlotsGo (fuel : Nat) (rules : List AvailabilityRule)
    (db : List Booking) (userID : String) (fromUTC toUTC : Time) :
    Option (Except String (List Slot)) :=
  if rules.isEmpty then some (.ok [])
  else
    match dayRangeGo fuel (truncDay fromUTC) (truncDay toUTC) with
    | none => none
    | some days =>
      match daysSlotsGo fuel rules fromUTC toUTC days with
      | none => none
      | some (.error e) => some (.error e)
      | some (.ok candidate) =>
        let bookings := listBookingsInRange db userID (fromUTC - nsPerHour) (toUTC + nsPerHour)
        let booked := bookings.map fun b => unixSec b.startAtUTC
        some (.ok (candidate.filter fun sl => !(booked.contains (unixSec sl.startUTC))))

/-! ### Booking conflict resolver (`BookingService`) -/

/-- The `models.Booking` row `CreateBooking` builds and inserts:
`status = confirmed`, the supplied metadata, the generated id and the
creation instant. -/
def mkBookingRow (userID : String) (req : CreateBookingParams)
    (newID : String) (now : Time) : Booking :=
  { id := newID
    userID := userID
    candidateEmail := req.candidateEmail
    startAtUTC := req.start
    endAtUTC := req.endAt
    status := "confirmed"
    source := req.source
    type := req.type
    description := req.description
    title := req.title
    createdAt := now }

/-- `BookingService.CreateBooking` as a transaction against store `db`:
locked existence check at `start`, re-derivation over
`[start-1s, endAt+1s]`, exact start/end match, insert-and-commit.  The
returned store is `db` unchanged on every pre-commit failure (rollback)
and `db` plus the inserted row on success.  `newID` stands for
`gen_random_uuid()`, `now` for `time.Now().UTC()`. -/
def createBooking (rules : List AvailabilityRule) (db : List Booking)
    (userID : String) (req : CreateBookingParams) (newID : String)
    (now : Time) : Except String Booking × List Booking :=
  if checkExistingBookingAtStart db userID req.start ≠ "" then
    (.error "slot already booked", db)
  else
    match generateAvailableSlots rules db userID (req.start - nsPerSec) (req.endAt + nsPerSec) with
    | .error e => (.error e, db)
    | .ok slots =>
      if slots.any fun sl => sl.startUTC == req.start && sl.endUTC == req.endAt then
        (.ok (mkBookingRow userID req newID now), db ++ [mkBookingRow userID req newID now])
      else (.error "slot not available", db)

/-- `BookingService.CancelBooking`.  The status read and the conditional
update are two separate store accesses with no enclosing transaction, so
they may observe different states: `db1` is the state seen by
`GetBookingStatus`, `db2` the state the `UPDATE` runs against (equal in a
sequential run). -/
def cancelBooking (db1 db2 : List Booking) (id : String) :
    Except String Unit × List Booking :=
  match getBookingStatus db1 id with
  | none => (.error "booking not found", db2)
  | some status =>
    if status = "cancelled" then (.error "already cancelled", db2)
    else
      if (cancelBookingUpdate db2 id).1 = 0 then
        (.error "booking not found", (cancelBookingUpdate db2 id).2)
      else (.ok (), (cancelBookingUpdate db2 id).2)

/-! ### Availability rule store (`AvailabilityService`, `postgres.AvailabilityRepo`) -/

/-- `AvailabilityRepo.GetAvailabilityRule`: first row with this id and user. -/
def getAvailabilityRule (store : List AvailabilityRule)
    (userID ruleID : String) : Option AvailabilityRule :=
  store.find? fun r => r.id == ruleID && r.userID == userID

/-- `AvailabilityRepo.UpdateAvailabilityRule`: set the six updatable
columns and `updated_at` on the rows matching `(id, user_id)`. -/
def updateAvailabilityRuleRow (src : AvailabilityRule) (now : Time)
    (r : AvailabilityRule) : AvailabilityRule :=
  { r with
    dayOfWeek := src.dayOfWeek
    startTime := src.startTime
    endTime := src.endTime
    slotLengthMins := src.slotLengthMins
    title := src.title
    available := src.available
    updatedAt := now }

/-- `AvailabilityService.UpdateAvailability`: fetch the (user, id) rule,
substitute the stored `dayOfWeek` when the supplied one is the zero
sentinel, validate, run the update, and re-fetch the updated record. -/
def updateAvailability (store : List AvailabilityRule)
    (userID ruleID : String) (rule : AvailabilityRule) (now : Time) :
    Except String (AvailabilityRule × List AvailabilityRule) :=
  match getAvailabilityRule store userID ruleID with
  | none => .error "no rows in result set"
  | some existing =>
    let rule1 := if rule.dayOfWeek = 0 then { rule with dayOfWeek := existing.dayOfWeek } else rule
    match validateAvailabilityRule rule1 with
    | .error e => .error e
    | .ok _ =>
      let store' := store.map fun r =>
        if r.id == ruleID && r.userID == userID then updateAvailabilityRuleRow rule1 now r
        else r
      match getAvailabilityRule store' userID ruleID with
      | none => .error "no rows in result set"
      | some updated => .ok (updated, store')

/-- The row `AvailabilityService.SetAvailability` prepares and
`InsertAvailabilityRule` stores for one input rule: user and timestamps
set by the service, id assigned by the database. -/
def insertedRuleRow (rid : String) (now : Time) (userID : String)
    (r : AvailabilityRule) : AvailabilityRule :=
  { r with id := rid, userID := userID, createdAt := now, updatedAt := now }

/-- The loop of `SetAvailability`: validate then insert each rule in
order, returning the saved rules; the first validation or insert failure
aborts, keeping the rows already inserted (no batch transaction). -/
def setAvailabilityLoop (genID : Nat → String) (now : Time) (userID : String) :
    Nat → List AvailabilityRule → List AvailabilityRule →
    List AvailabilityRule → Except String (List AvailabilityRule) × List AvailabilityRule
  | _, store, saved, [] => (.ok saved, store)
  | i, store, saved, r :: rest =>
    match validateAvailabilityRule { r with userID := userID, createdAt := now, updatedAt := now } with
    | .error e => (.error e, store)
    | .ok _ =>
      setAvailabilityLoop genID now userID (i + 1)
        (store ++ [insertedRuleRow (genID i) now userID
          { r with userID := userID, createdAt := now, updatedAt := now }])
        (saved ++ [insertedRuleRow (genID i) now userID
          { r with userID := userID, createdAt := now, updatedAt := now }]) rest

/-- `AvailabilityService.SetAvailability` against store `store`. -/
def setAvailability (genID : Nat → String) (now : Time) (userID : String)
    (store : List AvailabilityRule) (rules : List AvailabilityRule) :
    Except String (List AvailabilityRule) × List AvailabilityRule :=
  setAvailabilityLoop genID now userID 0 store [] rules

/-- The rows inserted for a prefix of valid rules, used to state the
partial-batch behaviour of `SetAvailability`. -/
def insertedRows (genID : Nat → String) (now : Time) (userID : String) :
    Nat → List AvailabilityRule → List AvailabilityRule
  | _, [] => []
  | i, r :: rest =>
    insertedRuleRow (genID i) now userID
        { r with userID := userID, createdAt := now, updatedAt := now }
      :: insertedRows genID now userID (i + 1) rest

/-! ### Helper lemmas: tiling and day iteration -/

theorem nsPerMin_pos : (0 : Int) < nsPerMin := by decide

theorem nsPerDay_pos : (0 : Int) < nsPerDay := by decide

/-- `wrap64` is the identity on the `int64` range. -/
theorem wrap64_eq_of_bounds {x : Int} (h1 : -(2 ^ 63) ≤ x) (h2 : x < 2 ^ 63) :
    wrap64 x = x := by
  unfold wrap64
  have e63 : (2 : Int) ^ 63 = 9223372036854775808 := by norm_num
  have e64 : (2 : Int) ^ 64 = 18446744073709551616 := by norm_num
  rw [e63] at h1 h2
  rw [e63, e64]
  omega

/-- The `int64` nanosecond slot length does not wrap while
`|slotLengthMins| ≤ 153722867` (since `153722867 * 6e10 < 2^63`). -/
theorem goSlotLen_eq_of_bounds {m : Int} (h1 : -153722867 ≤ m)
    (h2 : m ≤ 153722867) : goSlotLen m = m * nsPerMin := by
  have hub : m * nsPerMin ≤ 153722867 * nsPerMin :=
    mul_le_mul_of_nonneg_right h2 (le_of_lt nsPerMin_pos)
  have hlb : (-153722867 : Int) * nsPerMin ≤ m * nsPerMin :=
    mul_le_mul_of_nonneg_right h1 (le_of_lt nsPerMin_pos)
  unfold goSlotLen
  refine wrap64_eq_of_bounds ?_ ?_
  · calc (-(2 ^ 63) : Int) ≤ (-153722867 : Int) * nsPerMin := by decide
      _ ≤ m * nsPerMin := hlb
  · calc m * nsPerMin ≤ 153722867 * nsPerMin := hub
      _ < 2 ^ 63 := by decide

/-- Every tiled start is `lo` plus a whole number of slot lengths, and its
slot fits before `hi`; tiles only exist for positive length. -/
theorem tileStarts_sound {L lo hi y : Int} (h : y ∈ tileStarts L lo hi) :
    0 < L ∧ ∃ k : Nat, y = lo + k * L ∧ lo + ((k : Int) + 1) * L ≤ hi := by
  unfold tileStarts at h
  rcases List.mem_map.1 h with ⟨k, hk, hy⟩
  rw [List.mem_range] at hk
  unfold tileCount at hk
  by_cases hL : 0 < L
  · rw [if_pos hL] at hk
    refine ⟨hL, k, hy.symm, ?_⟩
    have h1 : ((k : Int) + 1) ≤ (hi - lo) / L := by omega
    have h2 := (Int.le_ediv_iff_mul_le hL).1 h1
    linarith
  · rw [if_neg hL] at hk
    omega

/-- Conversely, every whole tile that fits before `hi` is produced. -/
theorem tileStarts_complete {L lo hi : Int} (hL : 0 < L) {k : Nat}
    (h : lo + ((k : Int) + 1) * L ≤ hi) : lo + k * L ∈ tileStarts L lo hi := by
  unfold tileStarts
  refine List.mem_map.2 ⟨k, ?_, rfl⟩
  rw [List.mem_range]
  unfold tileCount
  rw [if_pos hL]
  have h1 : ((k : Int) + 1) ≤ (hi - lo) / L :=
    (Int.le_ediv_iff_mul_le hL).2 (by linarith)
  omega

/-- Every visited day is the start day plus a whole number of days. -/
theorem dayRange_sound {x e d : Time} (h : d ∈ dayRange x e) :
    ∃ i : Nat, d = x + (i : Int) * nsPerDay := by
  unfold dayRange at h
  rcases List.mem_map.1 h with ⟨i, _, hd⟩
  exact ⟨i, hd.symm⟩

/-- A day's truncation is a whole number of days (hence of minutes). -/
theorem truncDay_dvd (t : Time) : nsPerDay ∣ truncDay t := by
  refine ⟨t / nsPerDay, ?_⟩
  have h := Int.ediv_add_emod t nsPerDay
  unfold truncDay
  linarith

/-! ### Helper lemmas: `ruleSlotsOnDay` -/

/-- Structure of every slot emitted for one rule on one day: matching
weekday, available rule, positive slot length, start at the rule start
plus a whole number of slot lengths, exact slot-length duration, end not
past the rule end, and the window-overlap filter satisfied. -/
theorem ruleSlotsOnDay_sound {r : AvailabilityRule} {day lo hi : Time}
    {s1 : List Slot} {sl : Slot} (h : ruleSlotsOnDay r day lo hi = .ok s1)
    (hm : sl ∈ s1) :
    weekday day = r.dayOfWeek ∧ r.available = true ∧ 0 < goSlotLen r.slotLengthMins ∧
    ∃ sT eT : Nat, parseHHMM r.startTime = some sT ∧
      parseHHMM r.endTime = some eT ∧ (sT : Int) < eT ∧
      ∃ k : Nat,
        sl.startUTC = day + (sT : Int) * nsPerMin + (k : Int) * goSlotLen r.slotLengthMins ∧
        sl.endUTC = sl.startUTC + goSlotLen r.slotLengthMins ∧
        sl.endUTC ≤ day + (eT : Int) * nsPerMin ∧
        lo < sl.endUTC ∧ sl.startUTC < hi := by
  unfold ruleSlotsOnDay at h
  split at h
  · cases h; cases hm
  · rename_i hww
    split at h
    · cases h
    · rename_i sT hs
      split at h
      · cases h
      · rename_i eT he
        split at h
        · cases h
        · rename_i hle
          cases h
          rcases List.mem_filterMap.1 hm with ⟨st, hst, hcond⟩
          split at hcond
          · rename_i hwin
            cases hcond
            rcases tileStarts_sound hst with ⟨hLpos, k, hk, hfit⟩
            have hmpos := nsPerMin_pos
            refine ⟨by omega, hwin.2.2, hLpos, sT, eT, hs, he, by omega, k, ?_, rfl, ?_, ?_, ?_⟩
            · simpa using hk
            · simp only [hk]
              linarith
            · exact hwin.1
            · exact hwin.2.1
          · cases hcond

/-- Conversely, a fitting tile of a matching, available rule that overlaps
the window is emitted, in full and unclipped. -/
theorem ruleSlotsOnDay_complete {r : AvailabilityRule} {day lo hi : Time}
    {s1 : List Slot} (h : ruleSlotsOnDay r day lo hi = .ok s1)
    (hw : weekday day = r.dayOfWeek) {sT eT : Nat}
    (hs : parseHHMM r.startTime = some sT) (he : parseHHMM r.endTime = some eT)
    (hav : r.available = true) (hL : 0 < goSlotLen r.slotLengthMins) {k : Nat}
    (hfit : day + (sT : Int) * nsPerMin + ((k : Int) + 1) * goSlotLen r.slotLengthMins
      ≤ day + (eT : Int) * nsPerMin)
    (hwin1 : lo < day + (sT : Int) * nsPerMin + ((k : Int) + 1) * goSlotLen r.slotLengthMins)
    (hwin2 : day + (sT : Int) * nsPerMin + (k : Int) * goSlotLen r.slotLengthMins < hi) :
    (⟨day + (sT : Int) * nsPerMin + (k : Int) * goSlotLen r.slotLengthMins,
      day + (sT : Int) * nsPerMin + ((k : Int) + 1) * goSlotLen r.slotLengthMins⟩ : Slot) ∈ s1 := by
  have hmpos := nsPerMin_pos
  have hLpos : 0 < goSlotLen r.slotLengthMins := hL
  unfold ruleSlotsOnDay at h
  split at h
  · rename_i hww
    exact absurd hw hww
  · split at h
    · rename_i heq
      rw [hs] at heq
      cases heq
    · rename_i sT' hseq
      rw [hs] at hseq
      cases hseq
      split at h
      · rename_i heq
        rw [he] at heq
        cases heq
      · rename_i eT' heeq
        rw [he] at heeq
        cases heeq
        split at h
        · rename_i hle
          exact absurd hle (by nlinarith)
        · cases h
          refine List.mem_filterMap.2
            ⟨day + (sT : Int) * nsPerMin + (k : Int) * goSlotLen r.slotLengthMins, ?_, ?_⟩
          · have := @tileStarts_complete (goSlotLen r.slotLengthMins)
              (day + (sT : Int) * nsPerMin) (day + (eT : Int) * nsPerMin)
              hLpos k (by linarith)
            simpa using this
          · rw [if_pos ⟨by linarith, by linarith, hav⟩]
            congr 1
            ring_nf

/-! ### Helper lemmas: the rule and day folds -/

theorem rulesSlotsOnDay_sound {day lo hi : Time} {rules : List AvailabilityRule}
    {out : List Slot} {sl : Slot} (h : rulesSlotsOnDay day lo hi rules = .ok out)
    (hm : sl ∈ out) :
    ∃ r ∈ rules, ∃ s1, ruleSlotsOnDay r day lo hi = .ok s1 ∧ sl ∈ s1 := by
  induction rules generalizing out with
  | nil =>
    cases h
    cases hm
  | cons r rest ih =>
    unfold rulesSlotsOnDay at h
    split at h
    · cases h
    · rename_i s1 h1
      split at h
      · cases h
      · rename_i s2 h2
        cases h
        rcases List.mem_append.1 hm with hm1 | hm2
        · exact ⟨r, List.mem_cons_self r rest, s1, h1, hm1⟩
        · rcases ih h2 hm2 with ⟨r', hr', s', hs', hm'⟩
          exact ⟨r', List.mem_cons_of_mem r hr', s', hs', hm'⟩

theorem rulesSlotsOnDay_complete {day lo hi : Time} {rules : List AvailabilityRule}
    {out : List Slot} {r : AvailabilityRule}
    (h : rulesSlotsOnDay day lo hi rules = .ok out) (hr : r ∈ rules) :
    ∃ s1, ruleSlotsOnDay r day lo hi = .ok s1 ∧ ∀ sl ∈ s1, sl ∈ out := by
  induction rules generalizing out with
  | nil => cases hr
  | cons r0 rest ih =>
    unfold rulesSlotsOnDay at h
    split at h
    · cases h
    · rename_i s1 h1
      split at h
      · cases h
      · rename_i s2 h2
        cases h
        rcases List.mem_cons.1 hr with rfl | hr'
        · exact ⟨s1, h1, fun sl hms => List.mem_append.2 (Or.inl hms)⟩
        · rcases ih h2 hr' with ⟨s', hs', hsub⟩
          exact ⟨s', hs', fun sl hms => List.mem_append.2 (Or.inr (hsub sl hms))⟩

theorem daysSlots_sound {rules : List AvailabilityRule} {lo hi : Time}
    {days : List Time} {out : List Slot} {sl : Slot}
    (h : daysSlots rules lo hi days = .ok out) (hm : sl ∈ out) :
    ∃ d ∈ days, ∃ s1, rulesSlotsOnDay d lo hi rules = .ok s1 ∧ sl ∈ s1 := by
  induction days generalizing out with
  | nil =>
    cases h
    cases hm
  | cons d rest ih =>
    unfold daysSlots at h
    split at h
    · cases h
    · rename_i s1 h1
      split at h
      · cases h
      · rename_i s2 h2
        cases h
        rcases List.mem_append.1 hm with hm1 | hm2
        · exact ⟨d, List.mem_cons_self d rest, s1, h1, hm1⟩
        · rcases ih h2 hm2 with ⟨d', hd', s', hs', hm'⟩
          exact ⟨d', List.mem_cons_of_mem d hd', s', hs', hm'⟩

theorem daysSlots_complete {rules : List AvailabilityRule} {lo hi : Time}
    {days : List Time} {out : List Slot} {d : Time}
    (h : daysSlots rules lo hi days = .ok out) (hd : d ∈ days) :
    ∃ s1, rulesSlotsOnDay d lo hi rules = .ok s1 ∧ ∀ sl ∈ s1, sl ∈ out := by
  induction days generalizing out with
  | nil => cases hd
  | cons d0 rest ih =>
    unfold daysSlots at h
    split at h
    · cases h
    · rename_i s1 h1
      split at h
      · cases h
      · rename_i s2 h2
        cases h
        rcases List.mem_cons.1 hd with rfl | hd'
        · exact ⟨s1, h1, fun sl hms => List.mem_append.2 (Or.inl hms)⟩
        · rcases ih h2 hd' with ⟨s', hs', hsub⟩
          exact ⟨s', hs', fun sl hms => List.mem_append.2 (Or.inr (hsub sl hms))⟩

/-- Composition: every candidate slot comes from some rule on some visited
day, with the full per-rule structure. -/
theorem candidateSlots_sound {rules : List AvailabilityRule} {lo hi : Time}
    {cs : List Slot} {sl : Slot} (h : candidateSlots rules lo hi = .ok cs)
    (hm : sl ∈ cs) :
    ∃ d ∈ dayRange (truncDay lo) (truncDay hi), ∃ r ∈ rules,
      ∃ s1, ruleSlotsOnDay r d lo hi = .ok s1 ∧ sl ∈ s1 := by
  unfold candidateSlots at h
  rcases daysSlots_sound h hm with ⟨d, hd, s1, h1, hm1⟩
  rcases rulesSlotsOnDay_sound h1 hm1 with ⟨r, hr, s2, h2, hm2⟩
  exact ⟨d, hd, r, hr, s2, h2, hm2⟩

/-- Characterization of a successful `generateAvailableSlots` run: either
the rule list was empty, or the result is the candidate list minus the
slots whose start second is occupied by a loaded confirmed booking. -/
theorem generateAvailableSlots_ok {rules : List AvailabilityRule}
    {db : List Booking} {userID : String} {lo hi : Time} {out : List Slot}
    (h : generateAvailableSlots rules db userID lo hi = .ok out) :
    (rules = [] ∧ out = []) ∨
    (∃ cs, candidateSlots rules lo hi = .ok cs ∧
      out = cs.filter fun sl =>
        !(((listBookingsInRange db userID (lo - nsPerHour) (hi + nsPerHour)).map
            fun b => unixSec b.startAtUTC).contains (unixSec sl.startUTC))) := by
  unfold generateAvailableSlots at h
  split at h
  · rename_i hempty
    cases h
    exact Or.inl ⟨List.isEmpty_iff.1 hempty, rfl⟩
  · split at h
    · cases h
    · rename_i cs hcs
      cases h
      exact Or.inr ⟨cs, hcs, rfl⟩

/-! ### Concrete fixtures used by witnesses and counterexamples -/

/-- Monday 1970-01-05 00:00 UTC (`weekday = 1`). -/
def day4 : Time := 4 * 86400 * 1000000000

/-- A Monday 09:00–10:00 rule tiled in 30-minute slots. -/
def monRule : AvailabilityRule :=
  ⟨"r1", "u", 1, "09:00", "10:00", 30, "t", true, 0, 0⟩

/-- A Monday 08:00–11:00 rule tiled in one 180-minute slot. -/
def longRule : AvailabilityRule :=
  ⟨"r2", "u", 1, "08:00", "11:00", 180, "t", true, 0, 0⟩

/-- A confirmed booking of user `u` at Monday 09:00–09:30. -/
def monBooking : Booking :=
  ⟨"b1", "u", "a@b", day4 + 32400 * 1000000000, day4 + 34200 * 1000000000,
   "confirmed", "", "", "", "", 0⟩

/-- A confirmed booking of user `u` at Monday 08:00–11:00. -/
def longBooking : Booking :=
  ⟨"b2", "u", "a@b", day4 + 28800 * 1000000000, day4 + 39600 * 1000000000,
   "confirmed", "", "", "", "", 0⟩

/-! ### Claim C4 -/

/-- The property of claim C4, for one slot: it is a whole tile of some
rule — exactly `slotLengthMins` minutes long, starting at the rule's start
time plus a whole number of slot lengths on a day with matching weekday
and `available = true`, and ending no later than that day's rule end. -/
def SlotFromRuleTiling (rules : List AvailabilityRule) (sl : Slot) : Prop :=
  ∃ r ∈ rules, ∃ day : Time, ∃ sT eT k : Nat,
    parseHHMM r.startTime = some sT ∧ parseHHMM r.endTime = some eT ∧
    weekday day = r.dayOfWeek ∧ r.available = true ∧ 0 < r.slotLengthMins ∧
    sl.startUTC = day + (sT : Int) * nsPerMin + (k : Int) * (r.slotLengthMins * nsPerMin) ∧
    sl.endUTC - sl.startUTC = r.slotLengthMins * nsPerMin ∧
    sl.endUTC ≤ day + (eT : Int) * nsPerMin

/-- A rule whose 307445735-minute slot length overflows `int64` when
multiplied by `time.Minute`: the product wraps to `26290448384` ns. -/
def bigRule : AvailabilityRule :=
  ⟨"rb", "u", 1, "00:00", "00:01", 307445735, "t", true, 0, 0⟩

/-- Counterexample to claim C4 as stated: with the overflowing rule the
derivation returns slots of duration `26290448384` ns — the wrapped
`int64` product — so the first returned slot is not a
`slotLengthMinutes`-minute tile of any rule. -/
theorem generateAvailableSlots_slots_from_rule_tiling_counterexample :
    generateAvailableSlots [bigRule] [] "u" day4 (day4 + 60000000000) =
      .ok [⟨day4, day4 + 26290448384⟩,
           ⟨day4 + 26290448384, day4 + 52580896768⟩] ∧
    ¬ SlotFromRuleTiling [bigRule] ⟨day4, day4 + 26290448384⟩ := by
  refine ⟨rfl, ?_⟩
  rintro ⟨r, hr, day, sT, eT, k, -, -, -, -, -, -, hdur, -⟩
  rcases List.mem_singleton.1 hr with rfl
  exact absurd hdur (by decide)

/-- Claim C4 as amended: provided every rule's `slotLengthMinutes` lies in
the non-overflowing range `|slotLengthMinutes| ≤ 153722867`, every slot
returned by the slot derivation has duration exactly `slotLengthMinutes`
of the rule that produced it, starts at `rule.startTime` plus an integer
multiple of `slotLengthMinutes` on a day whose weekday equals the rule's
`dayOfWeek` with `available = true`, and ends no later than that day's
`rule.endTime` (a trailing partial period is never emitted). -/
theorem generateAvailableSlots_slots_from_rule_tiling
    {rules : List AvailabilityRule} {db : List Booking} {userID : String}
    {lo hi : Time} {out : List Slot}
    (hNoWrap : ∀ r ∈ rules, -153722867 ≤ r.slotLengthMins ∧ r.slotLengthMins ≤ 153722867)
    (h : generateAvailableSlots rules db userID lo hi = .ok out) :
    ∀ sl ∈ out, SlotFromRuleTiling rules sl := by
  intro sl hm
  rcases generateAvailableSlots_ok h with ⟨rfl, rfl⟩ | ⟨cs, hcs, rfl⟩
  · cases hm
  · have hm' := (List.mem_filter.1 hm).1
    rcases candidateSlots_sound hcs hm' with ⟨d, _, r, hr, s1, h1, hm1⟩
    rcases ruleSlotsOnDay_sound h1 hm1 with
      ⟨hw, hav, hL, sT, eT, hs, he, _, k, hks, hke, hkend, _, _⟩
    have hg : goSlotLen r.slotLengthMins = r.slotLengthMins * nsPerMin :=
      goSlotLen_eq_of_bounds (hNoWrap r hr).1 (hNoWrap r hr).2
    rw [hg] at hL hks hke
    have hposm : 0 < r.slotLengthMins := by nlinarith [nsPerMin_pos]
    exact ⟨r, hr, d, sT, eT, k, hs, he, hw, hav, hposm, hks, by rw [hke]; ring, hkend⟩

/-- Witness for the amended claim C4 at a concrete input: the 09:00–09:30
slot of the Monday rule over the window [Mon 00:00, Mon 10:00). -/
theorem generateAvailableSlots_slots_from_rule_tiling_witness :
    generateAvailableSlots [monRule] [] "u" day4 (day4 + 36000 * 1000000000) =
      .ok [⟨day4 + 32400 * 1000000000, day4 + 34200 * 1000000000⟩,
           ⟨day4 + 34200 * 1000000000, day4 + 36000 * 1000000000⟩] ∧
    SlotFromRuleTiling [monRule] ⟨day4 + 32400 * 1000000000, day4 + 34200 * 1000000000⟩ :=
  ⟨rfl, generateAvailableSlots_slots_from_rule_tiling (by decide)
    (rfl : generateAvailableSlots [monRule] [] "u" day4 (day4 + 36000 * 1000000000) =
      .ok [⟨day4 + 32400 * 1000000000, day4 + 34200 * 1000000000⟩,
           ⟨day4 + 34200 * 1000000000, day4 + 36000 * 1000000000⟩])
    _ (by decide)⟩

/-! ### Claim C2 -/

/-- Counterexample to claim C2 as stated: with a 180-minute slot and the
window [Mon 10:30, Mon 11:30), the derivation returns the 08:00–11:00 slot
even though a confirmed booking of the same user starts exactly at
Mon 08:00 — the booking's start lies before `windowStart - 1h`, so the
padded load range misses it. -/
theorem generateAvailableSlots_returns_booked_start_counterexample :
    longBooking.status = "confirmed" ∧ longBooking.userID = "u" ∧
    generateAvailableSlots [longRule] [longBooking] "u"
        (day4 + 37800 * 1000000000) (day4 + 41400 * 1000000000) =
      .ok [⟨day4 + 28800 * 1000000000, day4 + 39600 * 1000000000⟩] ∧
    (⟨day4 + 28800 * 1000000000, day4 + 39600 * 1000000000⟩ : Slot).startUTC =
      longBooking.startAtUTC :=
  ⟨rfl, rfl, rfl, rfl⟩

/-- Claim C2 as amended: provided every rule's `slotLengthMinutes` lies
between 1 and 60 (so the `int64` nanosecond length does not wrap and a
slot overlapping the window cannot start more than one hour before it),
no returned slot starts exactly at the `startAt` of an existing confirmed
booking of the user. -/
theorem generateAvailableSlots_no_booked_start
    {rules : List AvailabilityRule} {db : List Booking} {userID : String}
    {lo hi : Time} {out : List Slot}
    (hLmax : ∀ r ∈ rules, 1 ≤ r.slotLengthMins ∧ r.slotLengthMins ≤ 60)
    (h : generateAvailableSlots rules db userID lo hi = .ok out) :
    ∀ sl ∈ out, ∀ b ∈ db, b.userID = userID → b.status = "confirmed" →
      sl.startUTC ≠ b.startAtUTC := by
  intro sl hm b hb hbu hbs heq
  rcases generateAvailableSlots_ok h with ⟨rfl, rfl⟩ | ⟨cs, hcs, rfl⟩
  · cases hm
  · have hfilter := (List.mem_filter.1 hm).2
    have hmem := (List.mem_filter.1 hm).1
    rcases candidateSlots_sound hcs hmem with ⟨d, _, r, hr, s1, h1, hm1⟩
    rcases ruleSlotsOnDay_sound h1 hm1 with
      ⟨_, _, hL, sT, eT, _, _, _, k, hks, hke, _, hwin1, hwin2⟩
    have hg : goSlotLen r.slotLengthMins = r.slotLengthMins * nsPerMin :=
      goSlotLen_eq_of_bounds (by have := (hLmax r hr).1; omega)
        (by have := (hLmax r hr).2; omega)
    rw [hg] at hke
    have h60 : r.slotLengthMins * nsPerMin ≤ nsPerHour := by
      have hr60 := (hLmax r hr).2
      have hstep : r.slotLengthMins * nsPerMin ≤ 60 * nsPerMin :=
        mul_le_mul_of_nonneg_right hr60 (le_of_lt nsPerMin_pos)
      calc r.slotLengthMins * nsPerMin ≤ 60 * nsPerMin := hstep
        _ = nsPerHour := by decide
    have hhour : (0 : Int) < nsPerHour := by decide
    have hb1 : lo - nsPerHour ≤ b.startAtUTC := by linarith
    have hb2 : b.startAtUTC < hi + nsPerHour := by linarith
    have hload : b ∈ listBookingsInRange db userID (lo - nsPerHour) (hi + nsPerHour) := by
      unfold listBookingsInRange
      refine List.mem_filter.2 ⟨hb, ?_⟩
      simp only [Bool.and_eq_true, beq_iff_eq, decide_eq_true_eq]
      exact ⟨⟨hbu, hb1, hb2⟩, hbs⟩
    have hkey : unixSec sl.startUTC ∈
        (listBookingsInRange db userID (lo - nsPerHour) (hi + nsPerHour)).map
          fun b => unixSec b.startAtUTC :=
      List.mem_map.2 ⟨b, hload, by rw [heq]⟩
    simp only [Bool.not_eq_true', List.contains_eq_any_beq, List.any_eq_false] at hfilter
    exact absurd (beq_self_eq_true (unixSec sl.startUTC)) (by simpa using hfilter _ hkey)

/-- Witness for the amended claim C2: the Monday 09:00 booking removes the
09:00 slot, and the surviving 09:30 slot starts elsewhere. -/
theorem generateAvailableSlots_no_booked_start_witness :
    (⟨day4 + 34200 * 1000000000, day4 + 36000 * 1000000000⟩ : Slot).startUTC ≠
      monBooking.startAtUTC :=
  generateAvailableSlots_no_booked_start (by decide)
    (rfl : generateAvailableSlots [monRule] [monBooking] "u" day4
      (day4 + 36000 * 1000000000) =
      .ok [⟨day4 + 34200 * 1000000000, day4 + 36000 * 1000000000⟩])
    _ (by decide) monBooking (by decide) rfl rfl

/-! ### Claim C5 -/

/-- Claim C5: a tiled candidate slot (a tile of the `int64` nanosecond
slot length) is included in the candidate list if and only if its end is
strictly after `windowStart` and its start is strictly before `windowEnd`;
slots partially overlapping the window edge are included in full, with
start and end unclipped to the window bounds. -/
theorem candidateSlots_window_overlap_filter
    {rules : List AvailabilityRule} {lo hi : Time} {cs : List Slot}
    {r : AvailabilityRule} {day : Time} {sT eT : Nat} {k : Nat}
    (hok : candidateSlots rules lo hi = .ok cs)
    (hr : r ∈ rules) (hday : day ∈ dayRange (truncDay lo) (truncDay hi))
    (hw : weekday day = r.dayOfWeek) (hav : r.available = true)
    (hs : parseHHMM r.startTime = some sT) (he : parseHHMM r.endTime = some eT)
    (hL : 0 < goSlotLen r.slotLengthMins)
    (hfit : day + (sT : Int) * nsPerMin + ((k : Int) + 1) * goSlotLen r.slotLengthMins
      ≤ day + (eT : Int) * nsPerMin) :
    (⟨day + (sT : Int) * nsPerMin + (k : Int) * goSlotLen r.slotLengthMins,
      day + (sT : Int) * nsPerMin + ((k : Int) + 1) * goSlotLen r.slotLengthMins⟩ : Slot) ∈ cs ↔
    (lo < day + (sT : Int) * nsPerMin + ((k : Int) + 1) * goSlotLen r.slotLengthMins ∧
      day + (sT : Int) * nsPerMin + (k : Int) * goSlotLen r.slotLengthMins < hi) := by
  constructor
  · intro hm
    rcases candidateSlots_sound hok hm with ⟨d', _, r', _, s1, h1, hm1⟩
    rcases ruleSlotsOnDay_sound h1 hm1 with
      ⟨_, _, _, _, _, _, _, _, _, _, _, _, hwin1, hwin2⟩
    exact ⟨hwin1, hwin2⟩
  · intro hwin
    unfold candidateSlots at hok
    rcases daysSlots_complete hok hday with ⟨s1, h1, hsub1⟩
    rcases rulesSlotsOnDay_complete h1 hr with ⟨s2, h2, hsub2⟩
    exact hsub1 _ (hsub2 _
      (ruleSlotsOnDay_complete h2 hw hs he hav hL hfit hwin.1 hwin.2))

/-- Witness for claim C5: with the 09:00–10:00 Monday rule and window
[Mon 09:15, Mon 09:45), the first tile 09:00–09:30 only partially overlaps
the window yet is included, in full. -/
theorem candidateSlots_window_overlap_filter_witness :
    ((⟨day4 + 32400 * 1000000000, day4 + 34200 * 1000000000⟩ : Slot) ∈
        [(⟨day4 + 32400 * 1000000000, day4 + 34200 * 1000000000⟩ : Slot),
         ⟨day4 + 34200 * 1000000000, day4 + 36000 * 1000000000⟩] ↔
      (day4 + 33300 * 1000000000 < day4 + 34200 * 1000000000 ∧
        day4 + 32400 * 1000000000 < day4 + 35100 * 1000000000)) :=
  @candidateSlots_window_overlap_filter [monRule]
    (day4 + 33300 * 1000000000) (day4 + 35100 * 1000000000)
    [⟨day4 + 32400 * 1000000000, day4 + 34200 * 1000000000⟩,
     ⟨day4 + 34200 * 1000000000, day4 + 36000 * 1000000000⟩]
    monRule day4 540 600 0 rfl
    (by decide) (by decide) (by decide) (by decide) (by decide) (by decide)
    (by decide) (by decide)

/-! ### Claim C3 -/

/-- The locked existence check finds nothing exactly when no confirmed
booking of the user starts at `start` (store ids are never empty). -/
theorem checkExistingBookingAtStart_empty_iff {db : List Booking}
    {userID : String} {start : Time} (hids : ∀ b ∈ db, b.id ≠ "") :
    checkExistingBookingAtStart db userID start = "" ↔
    ∀ b ∈ db, ¬(b.userID = userID ∧ b.status = "confirmed" ∧ b.startAtUTC = start) := by
  unfold checkExistingBookingAtStart
  cases hf : db.find? fun b =>
      b.userID == userID && b.status == "confirmed" && b.startAtUTC == start with
  | none =>
    simp only [List.find?_eq_none, Bool.and_eq_true, beq_iff_eq] at hf
    constructor
    · intro _ b hb hprop
      exact hf b hb ⟨⟨hprop.1, hprop.2.1⟩, hprop.2.2⟩
    · intro _
      rfl
  | some b =>
    have hb := List.mem_of_find?_eq_some hf
    have hp := List.find?_some hf
    simp only [Bool.and_eq_true, beq_iff_eq] at hp
    constructor
    · intro hempty
      exact absurd hempty (hids b hb)
    · intro hnone
      exact absurd ⟨hp.1.1, hp.1.2, hp.2⟩ (hnone b hb)

/-- Claim C3: the contract of `CreateBooking` — an existing confirmed
booking of the user at exactly `start` fails the call with the conflict
error and an unchanged store; otherwise, if the derivation over the narrow
window `[start-1s, end+1s]` yields no slot with exactly the requested
bounds, the call fails with the validation error and an unchanged store;
otherwise the confirmed row with the supplied metadata is inserted and
returned; and every failing call leaves the store unchanged. -/
theorem createBooking_contract (rules : List AvailabilityRule)
    (db : List Booking) (userID : String) (req : CreateBookingParams)
    (newID : String) (now : Time) (hids : ∀ b ∈ db, b.id ≠ "") :
    ((∃ b ∈ db, b.userID = userID ∧ b.status = "confirmed" ∧ b.startAtUTC = req.start) →
      createBooking rules db userID req newID now = (.error "slot already booked", db)) ∧
    (∀ slots, (∀ b ∈ db, ¬(b.userID = userID ∧ b.status = "confirmed" ∧ b.startAtUTC = req.start)) →
      generateAvailableSlots rules db userID (req.start - nsPerSec) (req.endAt + nsPerSec) = .ok slots →
      (∀ sl ∈ slots, ¬(sl.startUTC = req.start ∧ sl.endUTC = req.endAt)) →
      createBooking rules db userID req newID now = (.error "slot not available", db)) ∧
    (∀ slots sl, (∀ b ∈ db, ¬(b.userID = userID ∧ b.status = "confirmed" ∧ b.startAtUTC = req.start)) →
      generateAvailableSlots rules db userID (req.start - nsPerSec) (req.endAt + nsPerSec) = .ok slots →
      sl ∈ slots → sl.startUTC = req.start → sl.endUTC = req.endAt →
      createBooking rules db userID req newID now =
        (.ok (mkBookingRow userID req newID now), db ++ [mkBookingRow userID req newID now])) ∧
    (∀ e db2, createBooking rules db userID req newID now = (.error e, db2) → db2 = db) := by
  refine ⟨?_, ?_, ?_, ?_⟩
  · intro hex
    have hne : checkExistingBookingAtStart db userID req.start ≠ "" := by
      intro hempty
      rcases hex with ⟨b, hb, hprop⟩
      exact ((checkExistingBookingAtStart_empty_iff hids).1 hempty) b hb hprop
    unfold createBooking
    rw [if_pos hne]
  · intro slots hnone hgen hnosl
    have hempty : checkExistingBookingAtStart db userID req.start = "" :=
      (checkExistingBookingAtStart_empty_iff hids).2 hnone
    have hany : (slots.any fun sl => sl.startUTC == req.start && sl.endUTC == req.endAt) = false := by
      rw [List.any_eq_false]
      intro sl hsl
      simp only [Bool.and_eq_true, beq_iff_eq]
      exact fun hc => hnosl sl hsl hc
    unfold createBooking
    rw [if_neg (by simp [hempty])]
    split
    · rename_i e heq
      rw [hgen] at heq
      cases heq
    · rename_i slots' heq
      rw [hgen] at heq
      injection heq with heq'
      subst heq'
      simp [hany]
  · intro slots sl hnone hgen hsl hst hen
    have hempty : checkExistingBookingAtStart db userID req.start = "" :=
      (checkExistingBookingAtStart_empty_iff hids).2 hnone
    have hany : (slots.any fun sl => sl.startUTC == req.start && sl.endUTC == req.endAt) = true := by
      rw [List.any_eq_true]
      exact ⟨sl, hsl, by simp [hst, hen]⟩
    unfold createBooking
    rw [if_neg (by simp [hempty])]
    split
    · rename_i e heq
      rw [hgen] at heq
      cases heq
    · rename_i slots' heq
      rw [hgen] at heq
      injection heq with heq'
      subst heq'
      simp [hany]
  · intro e db2 h
    unfold createBooking at h
    split at h
    · injection h with h1 h2
      exact h2.symm
    · split at h
      · injection h with h1 h2
        exact h2.symm
      · split at h
        · injection h with h1 h2
          exact Except.noConfusion h1
        · injection h with h1 h2
          exact h2.symm

/-- The booking request used by the C3 witness: the Monday 09:00–09:30 slot. -/
def monReq : CreateBookingParams :=
  ⟨"a@b", day4 + 32400 * 1000000000, day4 + 34200 * 1000000000, "s", "ty", "d", "ti"⟩

/-- Witness for claim C3 at a concrete input: booking the 09:00–09:30 slot
against an empty booking store succeeds and appends exactly the confirmed
row. -/
theorem createBooking_contract_witness :
    createBooking [monRule] [] "u" monReq "nb1" 0 =
      (.ok (mkBookingRow "u" monReq "nb1" 0), [mkBookingRow "u" monReq "nb1" 0]) :=
  (createBooking_contract [monRule] [] "u" monReq "nb1" 0 (by decide)).2.2.1
    [⟨day4 + 32400 * 1000000000, day4 + 34200 * 1000000000⟩,
     ⟨day4 + 34200 * 1000000000, day4 + 36000 * 1000000000⟩]
    ⟨day4 + 32400 * 1000000000, day4 + 34200 * 1000000000⟩
    (by decide) rfl (by decide) rfl rfl

/-! ### Claim C6 -/

/-- `find?` commutes with a map that does not change the tested field. -/
theorem find?_map_invariant {α : Type} (l : List α) (f : α → α) (p : α → Bool)
    (hp : ∀ x, p (f x) = p x) : (l.map f).find? p = (l.find? p).map f := by
  induction l with
  | nil => rfl
  | cons a l ih =>
    by_cases hpa : p a = true
    · rw [List.map_cons, List.find?_cons_of_pos _ ((hp a).trans hpa),
        List.find?_cons_of_pos _ hpa]
      rfl
    · rw [List.map_cons, List.find?_cons_of_neg _ (by rw [hp a]; simpa using hpa),
        List.find?_cons_of_neg _ (by simpa using hpa), ih]

/-- First component of the conditional update: the affected row count. -/
theorem cancelBookingUpdate_fst (db : List Booking) (id : String) :
    (cancelBookingUpdate db id).1 =
      (db.filter fun b => b.id == id && b.status != "cancelled").length := rfl

/-- Second component of the conditional update: the updated store. -/
theorem cancelBookingUpdate_snd (db : List Booking) (id : String) :
    (cancelBookingUpdate db id).2 =
      db.map fun b =>
        if b.id == id && b.status != "cancelled" then { b with status := "cancelled" }
        else b := rfl

/-- Claim C6: the contract of `CancelBooking` — `NotFound` when no row has
the id; `AlreadyCancelled` when the status read sees `cancelled`; a
zero-row conditional update (a concurrent cancel won the race between the
two store accesses) reports `NotFound`, not success; otherwise the row is
set to `cancelled` and success is reported; and after a successful
sequential cancel, a second cancel of the same id returns
`AlreadyCancelled`, never success. -/
theorem cancelBooking_contract (db1 db2 db : List Booking) (id : String) :
    ((db1.find? fun b => b.id == id) = none →
      cancelBooking db1 db2 id = (.error "booking not found", db2)) ∧
    (∀ b, (db1.find? fun b => b.id == id) = some b → b.status = "cancelled" →
      cancelBooking db1 db2 id = (.error "already cancelled", db2)) ∧
    (∀ b, (db1.find? fun b => b.id == id) = some b → b.status ≠ "cancelled" →
      (∀ b2 ∈ db2, b2.id = id → b2.status = "cancelled") →
      cancelBooking db1 db2 id = (.error "booking not found", db2)) ∧
    (∀ b b2, (db1.find? fun b => b.id == id) = some b → b.status ≠ "cancelled" →
      b2 ∈ db2 → b2.id = id → b2.status ≠ "cancelled" →
      cancelBooking db1 db2 id = (.ok (), (cancelBookingUpdate db2 id).2) ∧
      (∀ c ∈ (cancelBookingUpdate db2 id).2, c.id = id → c.status = "cancelled")) ∧
    (∀ db', cancelBooking db db id = (.ok (), db') →
      cancelBooking db' db' id = (.error "already cancelled", db')) := by
  have hgs_none : ∀ (dbx : List Booking),
      (dbx.find? fun b => b.id == id) = none → getBookingStatus dbx id = none := by
    intro dbx hf
    unfold getBookingStatus
    rw [hf]
    rfl
  have hgs_some : ∀ (dbx : List Booking) (b : Booking),
      (dbx.find? fun b => b.id == id) = some b →
      getBookingStatus dbx id = some b.status := by
    intro dbx b hf
    unfold getBookingStatus
    rw [hf]
    rfl
  refine ⟨?_, ?_, ?_, ?_, ?_⟩
  · intro hf
    unfold cancelBooking
    split
    · rfl
    · rename_i status heq
      rw [hgs_none db1 hf] at heq
      cases heq
  · intro b hf hcan
    unfold cancelBooking
    split
    · rename_i heq
      rw [hgs_some db1 b hf] at heq
      cases heq
    · rename_i status heq
      rw [hgs_some db1 b hf] at heq
      injection heq with heq'
      subst heq'
      rw [if_pos hcan]
  · intro b hf hne hall
    have hfilter : (db2.filter fun b => b.id == id && b.status != "cancelled") = [] := by
      rw [List.filter_eq_nil_iff]
      intro b2 hb2
      simp only [Bool.and_eq_true, beq_iff_eq, bne_iff_ne, ne_eq, not_and, not_not]
      exact fun hid => hall b2 hb2 hid
    have hmap : (db2.map fun b =>
        if b.id == id && b.status != "cancelled" then { b with status := "cancelled" }
        else b) = db2 := by
      have hpt : ∀ b2 ∈ db2, (if b2.id == id && b2.status != "cancelled"
          then { b2 with status := "cancelled" } else b2) = b2 := by
        intro b2 hb2
        rw [if_neg]
        simp only [Bool.and_eq_true, beq_iff_eq, bne_iff_ne, ne_eq, not_and, not_not]
        exact fun hid => hall b2 hb2 hid
      exact (List.map_congr_left hpt).trans (List.map_id' db2)
    unfold cancelBooking
    split
    · rfl
    · rename_i status heq
      rw [hgs_some db1 b hf] at heq
      injection heq with heq'
      subst heq'
      rw [if_neg hne,
        if_pos (by rw [cancelBookingUpdate_fst, hfilter]; rfl),
        cancelBookingUpdate_snd, hmap]
  · intro b b2 hf hne hb2 hid2 hst2
    have hmem : b2 ∈ db2.filter fun b => b.id == id && b.status != "cancelled" := by
      refine List.mem_filter.2 ⟨hb2, ?_⟩
      simp [hid2, hst2]
    have hlen : (db2.filter fun b => b.id == id && b.status != "cancelled").length ≠ 0 := by
      intro h0
      rw [List.length_eq_zero] at h0
      rw [h0] at hmem
      cases hmem
    constructor
    · unfold cancelBooking
      split
      · rename_i heq
        rw [hgs_some db1 b hf] at heq
        cases heq
      · rename_i status heq
        rw [hgs_some db1 b hf] at heq
        injection heq with heq'
        subst heq'
        rw [if_neg hne, if_neg (by rw [cancelBookingUpdate_fst]; exact hlen)]
    · intro c hc hcid
      rw [cancelBookingUpdate_snd] at hc
      rcases List.mem_map.1 hc with ⟨b0, hb0, hfb0⟩
      by_cases hcond : (b0.id == id && b0.status != "cancelled") = true
      · rw [if_pos hcond] at hfb0
        rw [← hfb0]
      · rw [if_neg hcond] at hfb0
        subst hfb0
        simp only [Bool.and_eq_true, beq_iff_eq, bne_iff_ne, ne_eq, not_and, not_not] at hcond
        exact hcond hcid
  · intro db' hsucc
    unfold cancelBooking at hsucc
    split at hsucc
    · cases hsucc
    · rename_i status heq
      cases hfd : db.find? fun b => b.id == id with
      | none =>
        rw [hgs_none db hfd] at heq
        cases heq
      | some b =>
        rw [hgs_some db b hfd] at heq
        injection heq with heq'
        subst heq'
        split at hsucc
        · cases hsucc
        · rename_i hcan
          split at hsucc
          · cases hsucc
          · injection hsucc with h1 h2
            subst h2
            have hpb : (b.id == id && b.status != "cancelled") = true := by
              have hpbeq := List.find?_some hfd
              simp only [beq_iff_eq] at hpbeq
              simp [hpbeq, hcan]
            have hfind' : ((cancelBookingUpdate db id).2.find? fun b => b.id == id) =
                some { b with status := "cancelled" } := by
              rw [cancelBookingUpdate_snd, find?_map_invariant db _ _ ?hp, hfd]
              case hp =>
                intro x
                by_cases hx : (x.id == id && x.status != "cancelled") = true
                · rw [if_pos hx]
                · rw [if_neg hx]
              simp only [Option.map_some']
              rw [if_pos hpb]
            unfold cancelBooking
            split
            · rename_i heq2
              rw [hgs_some _ _ hfind'] at heq2
              cases heq2
            · rename_i status2 heq2
              rw [hgs_some _ _ hfind'] at heq2
              injection heq2 with heq2'
              subst heq2'
              rw [if_pos rfl]

/-- Witness for claim C6: cancelling the stored booking once succeeds and
marks it cancelled; a second cancel (via the single-shot part of the
contract) returns `AlreadyCancelled`; a cancel of an unknown id returns
`NotFound`. -/
theorem cancelBooking_contract_witness :
    cancelBooking [monBooking] [monBooking] "b1" =
      (.ok (), [{ monBooking with status := "cancelled" }]) ∧
    cancelBooking [{ monBooking with status := "cancelled" }]
        [{ monBooking with status := "cancelled" }] "b1" =
      (.error "already cancelled", [{ monBooking with status := "cancelled" }]) ∧
    cancelBooking [] [] "b1" = (.error "booking not found", []) :=
  ⟨((cancelBooking_contract [monBooking] [monBooking] [] "b1").2.2.2.1
      monBooking monBooking rfl (by decide) (by decide) rfl (by decide)).1,
   (cancelBooking_contract [] [] [monBooking] "b1").2.2.2.2
      [{ monBooking with status := "cancelled" }] rfl,
   (cancelBooking_contract [] [] [] "b1").1 rfl⟩

/-! ### Claim C7 -/

/-- Claim C7: an `UpdateAvailability` call on an existing rule whose
supplied `dayOfWeek` is the zero sentinel keeps the stored rule's
`dayOfWeek`, while the other supplied fields replace the stored values. -/
theorem updateAvailability_preserves_dayOfWeek
    (store : List AvailabilityRule) (userID ruleID : String)
    (rule : AvailabilityRule) (now : Time) (existing : AvailabilityRule)
    (hfind : getAvailabilityRule store userID ruleID = some existing)
    (hzero : rule.dayOfWeek = 0)
    (hval : validateAvailabilityRule rule = .ok ()) :
    ∃ updated store',
      updateAvailability store userID ruleID rule now = .ok (updated, store') ∧
      updated.dayOfWeek = existing.dayOfWeek ∧
      updated.startTime = rule.startTime ∧ updated.endTime = rule.endTime ∧
      updated.slotLengthMins = rule.slotLengthMins ∧ updated.title = rule.title ∧
      updated.available = rule.available ∧
      getAvailabilityRule store' userID ruleID = some updated ∧
      ∀ r ∈ store', r.id = ruleID → r.userID = userID →
        r.dayOfWeek = existing.dayOfWeek ∧ r.startTime = rule.startTime ∧
        r.endTime = rule.endTime ∧ r.slotLengthMins = rule.slotLengthMins ∧
        r.title = rule.title ∧ r.available = rule.available := by
  have hval1 : validateAvailabilityRule { rule with dayOfWeek := existing.dayOfWeek } = .ok () :=
    hval
  have hfind0 : store.find? (fun r => r.id == ruleID && r.userID == userID) = some existing :=
    hfind
  have hpexisting := List.find?_some hfind0
  have hinv : ∀ x : AvailabilityRule,
      (((if x.id == ruleID && x.userID == userID
          then updateAvailabilityRuleRow { rule with dayOfWeek := existing.dayOfWeek } now x
          else x).id == ruleID) &&
        ((if x.id == ruleID && x.userID == userID
          then updateAvailabilityRuleRow { rule with dayOfWeek := existing.dayOfWeek } now x
          else x).userID == userID)) =
      (x.id == ruleID && x.userID == userID) := by
    intro x
    by_cases hx : (x.id == ruleID && x.userID == userID) = true
    · rw [if_pos hx]
      exact hx.symm ▸ rfl
    · rw [if_neg hx]
  have hfind' : getAvailabilityRule
      (store.map fun r =>
        if r.id == ruleID && r.userID == userID
        then updateAvailabilityRuleRow { rule with dayOfWeek := existing.dayOfWeek } now r
        else r) userID ruleID =
      some (updateAvailabilityRuleRow { rule with dayOfWeek := existing.dayOfWeek } now existing) := by
    unfold getAvailabilityRule
    unfold getAvailabilityRule at hfind
    rw [find?_map_invariant store _ _ hinv, hfind]
    simp only [Option.map_some']
    rw [if_pos hpexisting]
  refine ⟨updateAvailabilityRuleRow { rule with dayOfWeek := existing.dayOfWeek } now existing,
    _, ?_, rfl, rfl, rfl, rfl, rfl, rfl, hfind', ?_⟩
  · unfold updateAvailability
    rw [hfind]
    simp only [hzero, hval1, hfind', if_pos]
  · intro r hr hid huser
    rcases List.mem_map.1 hr with ⟨r0, hr0, hfr0⟩
    by_cases hcond : (r0.id == ruleID && r0.userID == userID) = true
    · rw [if_pos hcond] at hfr0
      rw [← hfr0]
      exact ⟨rfl, rfl, rfl, rfl, rfl, rfl⟩
    · rw [if_neg hcond] at hfr0
      subst hfr0
      simp only [Bool.and_eq_true, beq_iff_eq] at hcond
      exact absurd ⟨hid, huser⟩ hcond

/-- The update input used by the C7 witness: `dayOfWeek` left at the zero
sentinel. -/
def updReq : AvailabilityRule := ⟨"", "", 0, "08:00", "09:00", 15, "nt", false, 0, 0⟩

/-- Witness for claim C7: updating the stored Monday rule with a
zero-`dayOfWeek` input keeps `dayOfWeek = 1` and replaces the rest. -/
theorem updateAvailability_preserves_dayOfWeek_witness :
    ∃ updated store',
      updateAvailability [monRule] "u" "r1" updReq 7 = .ok (updated, store') ∧
      updated.dayOfWeek = monRule.dayOfWeek ∧
      updated.startTime = updReq.startTime ∧ updated.endTime = updReq.endTime ∧
      updated.slotLengthMins = updReq.slotLengthMins ∧ updated.title = updReq.title ∧
      updated.available = updReq.available ∧
      getAvailabilityRule store' "u" "r1" = some updated ∧
      ∀ r ∈ store', r.id = "r1" → r.userID = "u" →
        r.dayOfWeek = monRule.dayOfWeek ∧ r.startTime = updReq.startTime ∧
        r.endTime = updReq.endTime ∧ r.slotLengthMins = updReq.slotLengthMins ∧
        r.title = updReq.title ∧ r.available = updReq.available :=
  updateAvailability_preserves_dayOfWeek [monRule] "u" "r1" updReq 7 monRule
    rfl rfl rfl

/-! ### Claim C8 -/

/-- The loop of `SetAvailability` stops at the first invalid rule, keeping
the rows already inserted and inserting nothing else. -/
theorem setAvailabilityLoop_stops_at_invalid (genID : Nat → String) (now : Time)
    (userID : String) (bad : AvailabilityRule) (rest : List AvailabilityRule)
    (msg : String)
    (hbad : validateAvailabilityRule
      { bad with userID := userID, createdAt := now, updatedAt := now } = .error msg) :
    ∀ (pre : List AvailabilityRule) (i : Nat)
      (store saved : List AvailabilityRule),
      (∀ r ∈ pre, validateAvailabilityRule
        { r with userID := userID, createdAt := now, updatedAt := now } = .ok ()) →
      setAvailabilityLoop genID now userID i store saved (pre ++ bad :: rest) =
        (.error msg, store ++ insertedRows genID now userID i pre) := by
  intro pre
  induction pre with
  | nil =>
    intro i store saved _
    rw [List.nil_append]
    unfold setAvailabilityLoop
    rw [hbad]
    unfold insertedRows
    rw [List.append_nil]
  | cons r pre ih =>
    intro i store saved hpre
    rw [List.cons_append]
    unfold setAvailabilityLoop
    rw [hpre r (List.mem_cons_self r pre)]
    rw [ih (i + 1) _ _ fun r' hr' => hpre r' (List.mem_cons_of_mem r hr')]
    simp only [insertedRows, List.append_assoc, List.singleton_append]

/-- Claim C8: a `SetAvailability` batch hitting a rule whose end is not
strictly after its start fails with the validation error and does not
persist that rule, while the valid rules earlier in the batch remain
persisted (the batch is not atomic). -/
theorem setAvailability_partial_batch (genID : Nat → String) (now : Time)
    (userID : String) (store : List AvailabilityRule)
    (pre : List AvailabilityRule) (bad : AvailabilityRule)
    (rest : List AvailabilityRule) {sT eT : Nat}
    (hpre : ∀ r ∈ pre, validateAvailabilityRule
      { r with userID := userID, createdAt := now, updatedAt := now } = .ok ())
    (hs : timeParseHHMM bad.startTime = some sT)
    (he : timeParseHHMM bad.endTime = some eT) (hle : eT ≤ sT) :
    setAvailability genID now userID store (pre ++ bad :: rest) =
      (.error "end_time must be after start_time",
        store ++ insertedRows genID now userID 0 pre) := by
  have hbad : validateAvailabilityRule
      { bad with userID := userID, createdAt := now, updatedAt := now } =
      .error "end_time must be after start_time" := by
    unfold validateAvailabilityRule
    simp only [hs, he]
    rw [if_neg (by omega)]
  unfold setAvailability
  exact setAvailabilityLoop_stops_at_invalid genID now userID bad rest _ hbad pre 0 store [] hpre

/-- The invalid rule of the spec scenario: end `09:00` before start `10:00`. -/
def badRule : AvailabilityRule := ⟨"", "", 1, "10:00", "09:00", 30, "", true, 0, 0⟩

/-- Witness for claim C8: the batch `[monRule, badRule]` fails with the
validation error and persists exactly the row for `monRule`. -/
theorem setAvailability_partial_batch_witness :
    setAvailability (fun _ => "gid") 5 "u" [] ([monRule] ++ badRule :: []) =
      (.error "end_time must be after start_time",
        [] ++ insertedRows (fun _ => "gid") 5 "u" 0 [monRule]) :=
  setAvailability_partial_batch (fun _ => "gid") 5 "u" [] [monRule] badRule []
    (by intro r hr; rw [List.mem_singleton] at hr; subst hr; rfl)
    rfl rfl (by decide)

/-! ### Claim C9: the fueled Go loops stabilize to the closed forms -/

/-- No tile fits: the tiling loop exits immediately. -/
theorem tileStarts_nil {L lo hi : Int} (hL : 0 < L) (h : hi < lo + L) :
    tileStarts L lo hi = [] := by
  have hcount : tileCount L lo hi = 0 := by
    unfold tileCount
    rw [if_pos hL]
    have hlt : (hi - lo) / L < 1 := (Int.ediv_lt_iff_lt_mul hL).2 (by omega)
    omega
  unfold tileStarts
  rw [hcount]
  rfl

/-- One tile fits: the tiling loop emits `lo` and continues from `lo + L`. -/
theorem tileStarts_cons {L lo hi : Int} (hL : 0 < L) (h : lo + L ≤ hi) :
    tileStarts L lo hi = lo :: tileStarts L (lo + L) hi := by
  have h1 : (hi - lo) / L = (hi - (lo + L)) / L + 1 := by
    have he : hi - lo = (hi - (lo + L)) + 1 * L := by ring
    rw [he, Int.add_mul_ediv_right _ _ (ne_of_gt hL)]
  have h2 : 0 ≤ (hi - (lo + L)) / L := by
    apply Int.ediv_nonneg
    · omega
    · omega
  have hcount : tileCount L lo hi = tileCount L (lo + L) hi + 1 := by
    unfold tileCount
    rw [if_pos hL, if_pos hL]
    omega
  unfold tileStarts
  rw [hcount, List.range_succ_eq_map, List.map_cons, List.map_map]
  congr 1
  · simp
  · apply List.map_congr_left
    intro k _
    simp only [Function.comp_apply, Nat.succ_eq_add_one]
    push_cast
    ring

/-- With enough fuel the fueled tiling loop returns the closed form. -/
theorem tileStartsGo_eq {L hi : Int} (hL : 0 < L) :
    ∀ (fuel : Nat) (lo : Int), (hi - lo).toNat ≤ fuel →
    tileStartsGo fuel L lo hi = some (tileStarts L lo hi) := by
  intro fuel
  induction fuel with
  | zero =>
    intro lo hbound
    have hx : hi < lo + L := by omega
    have hcond : ¬((fun s0 => decide (s0 + L ≤ hi)) lo = true) := by
      simp only [decide_eq_true_eq]
      omega
    unfold tileStartsGo whileAddGo
    rw [if_neg hcond, tileStarts_nil hL hx]
  | succ fuel ih =>
    intro lo hbound
    unfold tileStartsGo whileAddGo
    by_cases hc : lo + L ≤ hi
    · have hcond : ((fun s0 => decide (s0 + L ≤ hi)) lo = true) := by
        simp only [decide_eq_true_eq]
        exact hc
      rw [if_pos hcond]
      have hrec := ih (lo + L) (by omega)
      unfold tileStartsGo at hrec
      rw [hrec]
      simp only [Option.map_some']
      rw [tileStarts_cons hL hc]
    · have hcond : ¬((fun s0 => decide (s0 + L ≤ hi)) lo = true) := by
        simp only [decide_eq_true_eq]
        exact hc
      rw [if_neg hcond, tileStarts_nil hL (by omega)]

/-- The day loop does not run when the end day precedes the start day. -/
theorem dayRange_nil {x e : Int} (h : e < x) : dayRange x e = [] := by
  have hcount : dayCount x e = 0 := by
    unfold dayCount
    rw [if_neg (show ¬ x ≤ e by omega)]
  unfold dayRange
  rw [hcount]
  rfl

/-- The day loop visits `x` and continues from the next day. -/
theorem dayRange_cons {x e : Int} (h : x ≤ e) :
    dayRange x e = x :: dayRange (x + nsPerDay) e := by
  have hD : (0 : Int) < nsPerDay := nsPerDay_pos
  have hcount : dayCount x e = dayCount (x + nsPerDay) e + 1 := by
    unfold dayCount
    rw [if_pos h]
    by_cases h2 : x + nsPerDay ≤ e
    · rw [if_pos h2]
      have h1 : (e - x) / nsPerDay = (e - (x + nsPerDay)) / nsPerDay + 1 := by
        have he : e - x = (e - (x + nsPerDay)) + 1 * nsPerDay := by ring
        rw [he, Int.add_mul_ediv_right _ _ (ne_of_gt hD)]
      have h2' : 0 ≤ (e - (x + nsPerDay)) / nsPerDay := by
        apply Int.ediv_nonneg
        · omega
        · omega
      omega
    · rw [if_neg h2]
      have hlt : (e - x) / nsPerDay < 1 := (Int.ediv_lt_iff_lt_mul hD).2 (by omega)
      have hge : 0 ≤ (e - x) / nsPerDay := by
        apply Int.ediv_nonneg
        · omega
        · omega
      omega
  unfold dayRange
  rw [hcount, List.range_succ_eq_map, List.map_cons, List.map_map]
  congr 1
  · simp
  · apply List.map_congr_left
    intro i _
    simp only [Function.comp_apply, Nat.succ_eq_add_one]
    push_cast
    ring

/-- With enough fuel the fueled day loop returns the closed form. -/
theorem dayRangeGo_eq {e : Int} :
    ∀ (fuel : Nat) (x : Int), (e + nsPerDay - x).toNat ≤ fuel →
    dayRangeGo fuel x e = some (dayRange x e) := by
  have hD : (0 : Int) < nsPerDay := nsPerDay_pos
  intro fuel
  induction fuel with
  | zero =>
    intro x hbound
    have hx : e < x := by omega
    have hcond : ¬((fun d => decide (d ≤ e)) x = true) := by
      simp only [decide_eq_true_eq]
      omega
    unfold dayRangeGo whileAddGo
    rw [if_neg hcond, dayRange_nil hx]
  | succ fuel ih =>
    intro x hbound
    unfold dayRangeGo whileAddGo
    by_cases hc : x ≤ e
    · have hcond : ((fun d => decide (d ≤ e)) x = true) := by
        simp only [decide_eq_true_eq]
        exact hc
      rw [if_pos hcond]
      have hrec := ih (x + nsPerDay) (by omega)
      unfold dayRangeGo at hrec
      rw [hrec]
      simp only [Option.map_some']
      rw [dayRange_cons hc]
    · have hcond : ¬((fun d => decide (d ≤ e)) x = true) := by
        simp only [decide_eq_true_eq]
        exact hc
      rw [if_neg hcond, dayRange_nil (by omega)]

/-- Fuel needed by the tiling loop of one rule: the span of the rule's
daily window in nanoseconds. -/
def tileFuelNeeded (r : AvailabilityRule) : Nat :=
  match parseHHMM r.startTime, parseHHMM r.endTime with
  | some sT, some eT => (((eT : Int) - (sT : Int)) * nsPerMin).toNat
  | _, _ => 0

/-- Fuel covering the tiling loops of all rules. -/
def rulesFuelNeeded (rules : List AvailabilityRule) : Nat :=
  rules.foldr (fun r acc => max (tileFuelNeeded r) acc) 0

theorem tileFuelNeeded_le_rulesFuelNeeded {r : AvailabilityRule}
    {rules : List AvailabilityRule} (h : r ∈ rules) :
    tileFuelNeeded r ≤ rulesFuelNeeded rules := by
  induction rules with
  | nil => cases h
  | cons r0 rest ih =>
    rcases List.mem_cons.1 h with rfl | h'
    · exact le_max_left _ _
    · exact le_trans (ih h') (le_max_right _ _)

/-- With enough fuel the fueled per-rule body agrees with the closed form. -/
theorem ruleSlotsOnDayGo_eq {r : AvailabilityRule} {day lo hi : Int}
    {fuel : Nat} (hL : 0 < goSlotLen r.slotLengthMins)
    (hfuel : tileFuelNeeded r ≤ fuel) :
    ruleSlotsOnDayGo fuel r day lo hi = some (ruleSlotsOnDay r day lo hi) := by
  unfold ruleSlotsOnDayGo ruleSlotsOnDay
  by_cases hw : weekday day ≠ r.dayOfWeek
  · rw [if_pos hw, if_pos hw]
  · rw [if_neg hw, if_neg hw]
    cases hs : parseHHMM r.startTime with
    | none => rfl
    | some sT =>
      cases he : parseHHMM r.endTime with
      | none => rfl
      | some eT =>
        show (if (eT : Int) ≤ (sT : Int) then _ else _) =
          some (if (eT : Int) ≤ (sT : Int) then _ else _)
        by_cases hle : (eT : Int) ≤ (sT : Int)
        · rw [if_pos hle, if_pos hle]
        · rw [if_neg hle, if_neg hle]
          have hLpos : (0 : Int) < goSlotLen r.slotLengthMins := hL
          have hneedval : tileFuelNeeded r = (((eT : Int) - (sT : Int)) * nsPerMin).toNat := by
            unfold tileFuelNeeded
            rw [hs, he]
          have hneed : (day + (eT : Int) * nsPerMin - (day + (sT : Int) * nsPerMin)).toNat ≤ fuel := by
            have harith : day + (eT : Int) * nsPerMin - (day + (sT : Int) * nsPerMin) =
                ((eT : Int) - (sT : Int)) * nsPerMin := by ring
            rw [harith, ← hneedval]
            exact hfuel
          rw [tileStartsGo_eq hLpos fuel _ hneed]

/-- With enough fuel the fueled rule fold agrees with the closed form. -/
theorem rulesSlotsOnDayGo_eq {day lo hi : Int} {fuel : Nat}
    {rules : List AvailabilityRule}
    (hLs : ∀ r ∈ rules, 0 < goSlotLen r.slotLengthMins)
    (hfuel : rulesFuelNeeded rules ≤ fuel) :
    rulesSlotsOnDayGo fuel day lo hi rules = some (rulesSlotsOnDay day lo hi rules) := by
  induction rules with
  | nil => rfl
  | cons r rest ih =>
    unfold rulesSlotsOnDayGo rulesSlotsOnDay
    rw [ruleSlotsOnDayGo_eq (hLs r (List.mem_cons_self r rest))
      (le_trans (le_max_left _ _) hfuel)]
    cases hr1 : ruleSlotsOnDay r day lo hi with
    | error e => rfl
    | ok s1 =>
      rw [ih (fun r' hr' => hLs r' (List.mem_cons_of_mem r hr'))
        (le_trans (le_max_right _ _) hfuel)]
      cases hr2 : rulesSlotsOnDay day lo hi rest with
      | error e => rfl
      | ok s2 => rfl

/-- With enough fuel the fueled day fold agrees with the closed form. -/
theorem daysSlotsGo_eq {lo hi : Int} {fuel : Nat}
    {rules : List AvailabilityRule} {days : List Time}
    (hLs : ∀ r ∈ rules, 0 < goSlotLen r.slotLengthMins)
    (hfuel : rulesFuelNeeded rules ≤ fuel) :
    daysSlotsGo fuel rules lo hi days = some (daysSlots rules lo hi days) := by
  induction days with
  | nil => rfl
  | cons d rest ih =>
    unfold daysSlotsGo daysSlots
    rw [rulesSlotsOnDayGo_eq hLs hfuel]
    cases h1 : rulesSlotsOnDay d lo hi rules with
    | error e => rfl
    | ok s1 =>
      rw [ih]
      cases h2 : daysSlots rules lo hi rest with
      | error e => rfl
      | ok s2 => rfl

/-- With enough fuel the fueled transcription of `GenerateAvailableSlots`
returns exactly the closed-form derivation. -/
theorem generateAvailableSlotsGo_eq {rules : List AvailabilityRule}
    {db : List Booking} {userID : String} {lo hi : Int} {fuel : Nat}
    (hLs : ∀ r ∈ rules, 0 < goSlotLen r.slotLengthMins)
    (hfuel : (truncDay hi + nsPerDay - truncDay lo).toNat + rulesFuelNeeded rules ≤ fuel) :
    generateAvailableSlotsGo fuel rules db userID lo hi =
      some (generateAvailableSlots rules db userID lo hi) := by
  unfold generateAvailableSlotsGo generateAvailableSlots
  by_cases hempty : rules.isEmpty
  · rw [if_pos hempty, if_pos hempty]
  · rw [if_neg hempty, if_neg hempty]
    unfold candidateSlots
    cases hd : dayRangeGo fuel (truncDay lo) (truncDay hi) with
    | none =>
      rw [dayRangeGo_eq fuel _ (by omega)] at hd
      cases hd
    | some days =>
      rw [dayRangeGo_eq fuel _ (by omega)] at hd
      injection hd with hd'
      subst hd'
      have hds : daysSlotsGo fuel rules lo hi (dayRange (truncDay lo) (truncDay hi)) =
          some (daysSlots rules lo hi (dayRange (truncDay lo) (truncDay hi))) :=
        daysSlotsGo_eq hLs (by omega)
      simp only [hds]
      cases hcs : daysSlots rules lo hi (dayRange (truncDay lo) (truncDay hi)) with
      | error e => rfl
      | ok cs => rfl

/-- A Go `for` loop whose guard fails immediately exits with no
iterations, whatever the fuel. -/
theorem whileAddGo_stop {L : Int} {cond : Int → Bool} {s : Int}
    (h : cond s = false) : ∀ fuel : Nat, whileAddGo L cond fuel s = some [] := by
  intro fuel
  cases fuel with
  | zero =>
    unfold whileAddGo
    rw [if_neg (by simp [h])]
  | succ n =>
    unfold whileAddGo
    rw [if_neg (by simp [h])]

/-- A Go `for` loop with a non-positive additive step whose guard holds
once holds forever: the loop never terminates, whatever the fuel. -/
theorem whileAddGo_none {L hi : Int} (hL : L ≤ 0) :
    ∀ (fuel : Nat) (s : Int), s + L ≤ hi →
      whileAddGo L (fun s0 => decide (s0 + L ≤ hi)) fuel s = none := by
  intro fuel
  induction fuel with
  | zero =>
    intro s hs
    unfold whileAddGo
    rw [if_pos (by simpa using hs)]
  | succ n ih =>
    intro s hs
    unfold whileAddGo
    rw [if_pos (by simpa using hs), ih (s + L) (by omega)]
    rfl

/-- A rule whose 153722868-minute slot length wraps to the negative
`int64` nanosecond length `-9223371993709551616`. -/
def wrapRule : AvailabilityRule :=
  ⟨"rw", "u", 1, "00:00", "00:01", 153722868, "t", true, 0, 0⟩

/-- Counterexample to claim C9 as stated: `wrapRule` has
`slotLengthMinutes ≥ 1` and parseable times, yet its `int64` nanosecond
slot length wraps negative, so the Go tiling loop's guard holds forever
and the fueled transcription never stabilizes — it is `none` at every
fuel. -/
theorem generateAvailableSlots_terminates_counterexample :
    (∀ r ∈ [wrapRule], 1 ≤ r.slotLengthMins ∧
      (parseHHMM r.startTime).isSome ∧ (parseHHMM r.endTime).isSome) ∧
    ∀ fuel : Nat,
      generateAvailableSlotsGo fuel [wrapRule] [] "u" day4 (day4 + 60000000000) =
        none := by
  refine ⟨by decide, ?_⟩
  have hL : goSlotLen wrapRule.slotLengthMins ≤ 0 := by decide
  have htile : ∀ f : Nat, tileStartsGo f (goSlotLen wrapRule.slotLengthMins)
      (day4 + (((0 : Nat) : Int)) * nsPerMin) (day4 + (((1 : Nat) : Int)) * nsPerMin) =
        none := by
    intro f
    unfold tileStartsGo
    exact whileAddGo_none hL f _ (by decide)
  have hrule : ∀ f : Nat,
      ruleSlotsOnDayGo f wrapRule day4 day4 (day4 + 60000000000) = none := by
    intro f
    show (match tileStartsGo f (goSlotLen wrapRule.slotLengthMins)
        (day4 + (((0 : Nat) : Int)) * nsPerMin) (day4 + (((1 : Nat) : Int)) * nsPerMin) with
      | none => (none : Option (Except String (List Slot)))
      | some sts =>
        some (Except.ok (sts.filterMap fun st =>
          if day4 < st + goSlotLen wrapRule.slotLengthMins ∧
              st < day4 + 60000000000 ∧ wrapRule.available = true then
            some (⟨st, st + goSlotLen wrapRule.slotLengthMins⟩ : Slot)
          else none))) = none
    rw [htile f]
  have hrules : ∀ f : Nat,
      rulesSlotsOnDayGo f day4 day4 (day4 + 60000000000) [wrapRule] = none := by
    intro f
    unfold rulesSlotsOnDayGo
    rw [hrule f]
  have hdays : ∀ f : Nat,
      daysSlotsGo f [wrapRule] day4 (day4 + 60000000000) [day4] = none := by
    intro f
    unfold daysSlotsGo
    rw [hrules f]
  intro fuel
  cases fuel with
  | zero => rfl
  | succ n =>
    have hdr : dayRangeGo (n + 1) (truncDay day4) (truncDay (day4 + 60000000000)) =
        some [day4] := by
      unfold dayRangeGo whileAddGo
      rw [if_pos (by decide),
        whileAddGo_stop (by decide) n]
      rfl
    unfold generateAvailableSlotsGo
    rw [if_neg (by decide)]
    simp only [hdr]
    simp only [hdays (n + 1)]

/-- Claim C9 as amended: when every rule of the user has
`1 ≤ slotLengthMinutes ≤ 153722867` (so the `int64` nanosecond slot
length is positive) and parseable `HH:MM` times, the slot derivation
terminates — the fueled transcription of the Go loops stabilizes, for
every sufficiently large fuel, to the closed-form result. -/
theorem generateAvailableSlots_terminates (rules : List AvailabilityRule)
    (db : List Booking) (userID : String) (lo hi : Time)
    (h : ∀ r ∈ rules, 1 ≤ r.slotLengthMins ∧ r.slotLengthMins ≤ 153722867 ∧
      (parseHHMM r.startTime).isSome ∧ (parseHHMM r.endTime).isSome) :
    ∃ F : Nat, ∀ fuel : Nat, F ≤ fuel →
      generateAvailableSlotsGo fuel rules db userID lo hi =
        some (generateAvailableSlots rules db userID lo hi) := by
  refine ⟨(truncDay hi + nsPerDay - truncDay lo).toNat + rulesFuelNeeded rules, ?_⟩
  intro fuel hfuel
  refine generateAvailableSlotsGo_eq (fun r hr => ?_) hfuel
  rcases h r hr with ⟨h1, h2, -, -⟩
  rw [goSlotLen_eq_of_bounds (by omega) h2]
  exact mul_pos (by omega) nsPerMin_pos

/-- Witness for the amended claim C9 at a concrete input. -/
theorem generateAvailableSlots_terminates_witness :
    ∃ F : Nat, ∀ fuel : Nat, F ≤ fuel →
      generateAvailableSlotsGo fuel [monRule] [] "u" day4 (day4 + 36000 * 1000000000) =
        some (generateAvailableSlots [monRule] [] "u" day4 (day4 + 36000 * 1000000000)) :=
  generateAvailableSlots_terminates [monRule] [] "u" day4 (day4 + 36000 * 1000000000)
    (by decide)

/-! ### Claim C10 -/

/-- Every candidate slot of a non-overflowing rule set has whole-minute
bounds: its day is a whole number of days, the rule start a whole number
of minutes, and the tile offset a whole number of slot lengths. -/
theorem candidateSlots_minute_dvd {rules : List AvailabilityRule}
    {lo hi : Time} {cs : List Slot} {sl : Slot}
    (hNoWrap : ∀ r ∈ rules, -153722867 ≤ r.slotLengthMins ∧ r.slotLengthMins ≤ 153722867)
    (hcs : candidateSlots rules lo hi = .ok cs) (hm : sl ∈ cs) :
    nsPerMin ∣ sl.startUTC ∧ nsPerMin ∣ sl.endUTC := by
  rcases candidateSlots_sound hcs hm with ⟨d, hd, r, hr, s1, h1, hm1⟩
  rcases ruleSlotsOnDay_sound h1 hm1 with
    ⟨_, _, _, sT, eT, _, _, _, k, hks, hke, _, _, _⟩
  have hg : goSlotLen r.slotLengthMins = r.slotLengthMins * nsPerMin :=
    goSlotLen_eq_of_bounds (hNoWrap r hr).1 (hNoWrap r hr).2
  rw [hg] at hks hke
  rcases dayRange_sound hd with ⟨i, hdi⟩
  have hMD : nsPerMin ∣ nsPerDay := ⟨1440, by decide⟩
  have hday : nsPerMin ∣ d := by
    rw [hdi]
    exact dvd_add (dvd_trans hMD (truncDay_dvd lo)) (Dvd.dvd.mul_left hMD (i : Int))
  have hstart : nsPerMin ∣ sl.startUTC := by
    rw [hks]
    exact dvd_add (dvd_add hday (dvd_mul_left nsPerMin (sT : Int)))
      ((dvd_mul_left nsPerMin r.slotLengthMins).mul_left (k : Int))
  have hend : nsPerMin ∣ sl.endUTC := by
    rw [hke]
    exact dvd_add hstart (dvd_mul_left nsPerMin r.slotLengthMins)
  exact ⟨hstart, hend⟩

/-- On whole-minute instants, equality of `Unix()` whole-second keys is
equality of instants. -/
theorem unixSec_injOn_minutes {a c : Int} (ha : nsPerMin ∣ a)
    (hc : nsPerMin ∣ c) : unixSec a = unixSec c ↔ a = c := by
  constructor
  · intro h
    rcases ha with ⟨x, hx⟩
    rcases hc with ⟨y, hy⟩
    subst hx
    subst hy
    unfold unixSec at h
    have e1 : nsPerMin * x = nsPerSec * (60 * x) := by unfold nsPerMin; ring
    have e2 : nsPerMin * y = nsPerSec * (60 * y) := by unfold nsPerMin; ring
    rw [e1, e2, Int.mul_ediv_cancel_left _ (by decide : nsPerSec ≠ 0),
      Int.mul_ediv_cancel_left _ (by decide : nsPerSec ≠ 0)] at h
    have hxy : x = y := by omega
    rw [hxy]
  · intro h
    rw [h]

/-- The booking request matching the first wrapped slot of `bigRule`. -/
def bigReq : CreateBookingParams :=
  ⟨"a@b", day4, day4 + 26290448384, "s", "ty", "d", "ti"⟩

/-- Counterexample to claim C10 as stated: with the overflowing rule the
resolver accepts a booking whose end instant is not a whole minute, so
the `Unix()`-second key comparison is coarser than exact-instant matching
on a creatable booking. -/
theorem createBooking_bounds_are_slot_bounds_counterexample :
    createBooking [bigRule] [] "u" bigReq "nb2" 0 =
      (.ok (mkBookingRow "u" bigReq "nb2" 0), [mkBookingRow "u" bigReq "nb2" 0]) ∧
    ¬ nsPerMin ∣ (mkBookingRow "u" bigReq "nb2" 0).endAtUTC := by
  refine ⟨rfl, ?_⟩
  intro hdvd
  rw [Int.dvd_iff_emod_eq_zero] at hdvd
  exact absurd hdvd (by decide)

/-- Claim C10 as amended: provided every rule's `slotLengthMinutes` lies
in the non-overflowing range `|slotLengthMinutes| ≤ 153722867`, every
booking created through `CreateBooking` has `startAt` and `endAt` exactly
equal to the bounds of some slot derived from the user's rules at booking
time; both bounds are whole minutes, so the derivation's `Unix()`-second
occupied-key matching coincides with exact-instant matching on every
booking the resolver can create. -/
theorem createBooking_bounds_are_slot_bounds
    {rules : List AvailabilityRule} {db : List Booking} {userID : String}
    {req : CreateBookingParams} {newID : String} {now : Time}
    {b : Booking} {db' : List Booking}
    (hNoWrap : ∀ r ∈ rules, -153722867 ≤ r.slotLengthMins ∧ r.slotLengthMins ≤ 153722867)
    (h : createBooking rules db userID req newID now = (.ok b, db')) :
    ∃ slots, generateAvailableSlots rules db userID
        (req.start - nsPerSec) (req.endAt + nsPerSec) = .ok slots ∧
      (∃ sl ∈ slots, sl.startUTC = b.startAtUTC ∧ sl.endUTC = b.endAtUTC) ∧
      nsPerMin ∣ b.startAtUTC ∧ nsPerMin ∣ b.endAtUTC ∧
      (∀ t : Time, nsPerMin ∣ t →
        (unixSec t = unixSec b.startAtUTC ↔ t = b.startAtUTC)) ∧
      (∀ t : Time, nsPerMin ∣ t →
        (unixSec t = unixSec b.endAtUTC ↔ t = b.endAtUTC)) := by
  unfold createBooking at h
  split at h
  · injection h with h1 h2
    exact Except.noConfusion h1
  · split at h
    · injection h with h1 h2
      exact Except.noConfusion h1
    · rename_i slots heq
      split at h
      · rename_i hany
        injection h with h1 h2
        injection h1 with h1'
        subst h1'
        rcases List.any_eq_true.1 hany with ⟨sl, hsl, hpred⟩
        simp only [Bool.and_eq_true, beq_iff_eq] at hpred
        have hbs : (mkBookingRow userID req newID now).startAtUTC = req.start := rfl
        have hbe : (mkBookingRow userID req newID now).endAtUTC = req.endAt := rfl
        have hdvd : nsPerMin ∣ sl.startUTC ∧ nsPerMin ∣ sl.endUTC := by
          rcases generateAvailableSlots_ok heq with ⟨rfl, rfl⟩ | ⟨cs, hcs, hout⟩
          · cases hsl
          · subst hout
            exact candidateSlots_minute_dvd hNoWrap hcs (List.mem_filter.1 hsl).1
        have hdvds : nsPerMin ∣ (mkBookingRow userID req newID now).startAtUTC := by
          rw [hbs, ← hpred.1]
          exact hdvd.1
        have hdvde : nsPerMin ∣ (mkBookingRow userID req newID now).endAtUTC := by
          rw [hbe, ← hpred.2]
          exact hdvd.2
        refine ⟨slots, heq, ⟨sl, hsl, ?_, ?_⟩, hdvds, hdvde, ?_, ?_⟩
        · rw [hbs, hpred.1]
        · rw [hbe, hpred.2]
        · intro t ht
          exact unixSec_injOn_minutes ht hdvds
        · intro t ht
          exact unixSec_injOn_minutes ht hdvde
      · injection h with h1 h2
        exact Except.noConfusion h1

/-- Witness for claim C10 at the concrete booking of the C3 scenario. -/
theorem createBooking_bounds_are_slot_bounds_witness :
    ∃ slots, generateAvailableSlots [monRule] [] "u"
        (monReq.start - nsPerSec) (monReq.endAt + nsPerSec) = .ok slots ∧
      (∃ sl ∈ slots,
        sl.startUTC = (mkBookingRow "u" monReq "nb1" 0).startAtUTC ∧
        sl.endUTC = (mkBookingRow "u" monReq "nb1" 0).endAtUTC) ∧
      nsPerMin ∣ (mkBookingRow "u" monReq "nb1" 0).startAtUTC ∧
      nsPerMin ∣ (mkBookingRow "u" monReq "nb1" 0).endAtUTC ∧
      (∀ t : Time, nsPerMin ∣ t →
        (unixSec t = unixSec (mkBookingRow "u" monReq "nb1" 0).startAtUTC ↔
          t = (mkBookingRow "u" monReq "nb1" 0).startAtUTC)) ∧
      (∀ t : Time, nsPerMin ∣ t →
        (unixSec t = unixSec (mkBookingRow "u" monReq "nb1" 0).endAtUTC ↔
          t = (mkBookingRow "u" monReq "nb1" 0).endAtUTC)) :=
  createBooking_bounds_are_slot_bounds (by decide)
    (rfl : createBooking [monRule] [] "u" monReq "nb1" 0 =
      (.ok (mkBookingRow "u" monReq "nb1" 0), [mkBookingRow "u" monReq "nb1" 0]))

end Scheduler
